import Mathlib

/-!
Verification development for the hansard-backend transcript segmentation
engine, document model, identifier scheme and speaker extraction
(`src/hansard/parser.py`, `src/hansard/entities/speech.py`,
`src/hansard/entities/talker.py`).

The Python code is shallowly embedded: pydantic models become structures,
the stateful tree-walk of `Parser.parse_speeches` / `Parser.parse_speech`
becomes explicit state threading with an `Except` monad for Python
exceptions, and `str` values become `String`.
-/

/-- The Python exceptions that the parsing code can raise. -/
inductive PyError where
  | valueError (msg : String)
  | nameError (name : String)
  | assertionError
  | validationError
  | typeError
  deriving Repr, DecidableEq

/-! ### Decimal rendering of naturals (embedding of Python `str(int)` for
non-negative integers, as applied by `"_".join(map(str, hashable))` in
`Part._get_id`). -/

/-- The character for a single decimal digit. -/
def pyDigitChar (d : Nat) : Char :=
  match d with
  | 0 => '0' | 1 => '1' | 2 => '2' | 3 => '3' | 4 => '4'
  | 5 => '5' | 6 => '6' | 7 => '7' | 8 => '8' | 9 => '9'
  | _ => '*'

/-- Numeric value of a digit character. -/
def pyCharVal (c : Char) : Nat := c.toNat - 48

/-- Little-endian digit characters of `n` (least significant first),
with explicit fuel so that the recursion is structural. -/
def natToDigitsRev (fuel n : Nat) : List Char :=
  match fuel, n with
  | 0, _ => []
  | _, 0 => []
  | f + 1, n + 1 => pyDigitChar ((n + 1) % 10) :: natToDigitsRev f ((n + 1) / 10)

/-- The character data of Python `str(n)` for a non-negative integer. -/
def natReprData (n : Nat) : List Char :=
  if n = 0 then ['0'] else (natToDigitsRev n n).reverse

/-- Embedding of Python `str(n)` for a non-negative integer. -/
def pyNatRepr (n : Nat) : String := ⟨natReprData n⟩

/-- Value of a little-endian digit-character list. -/
def digitsValLE (l : List Char) : Nat :=
  l.foldr (fun c a => pyCharVal c + 10 * a) 0

/-- Value of a big-endian digit-character list (how a decimal string is
read back). -/
def digitsValBE (l : List Char) : Nat :=
  l.foldl (fun a c => 10 * a + pyCharVal c) 0

theorem pyCharVal_pyDigitChar {d : Nat} (h : d < 10) :
    pyCharVal (pyDigitChar d) = d := by
  interval_cases d <;> rfl

theorem pyDigitChar_toNat_le {d : Nat} (h : d < 10) :
    48 ≤ (pyDigitChar d).toNat ∧ (pyDigitChar d).toNat ≤ 57 := by
  interval_cases d <;> exact ⟨by decide, by decide⟩

theorem digitsValLE_natToDigitsRev : ∀ fuel n, n ≤ fuel →
    digitsValLE (natToDigitsRev fuel n) = n := by
  intro fuel
  induction fuel with
  | zero => intro n hn; interval_cases n; rfl
  | succ f ih =>
    intro n hn
    match n with
    | 0 => rfl
    | n + 1 =>
      have hdiv : (n + 1) / 10 ≤ f := by
        have h1 : (n + 1) / 10 < n + 1 := Nat.div_lt_self (Nat.succ_pos n) (by omega)
        omega
      show digitsValLE (pyDigitChar ((n + 1) % 10) :: natToDigitsRev f ((n + 1) / 10)) = n + 1
      have : digitsValLE (pyDigitChar ((n + 1) % 10) :: natToDigitsRev f ((n + 1) / 10))
          = pyCharVal (pyDigitChar ((n + 1) % 10)) + 10 * digitsValLE (natToDigitsRev f ((n + 1) / 10)) := rfl
      rw [this, ih _ hdiv, pyCharVal_pyDigitChar (Nat.mod_lt _ (by omega))]
      omega

theorem digitsValBE_reverse (l : List Char) :
    digitsValBE l.reverse = digitsValLE l := by
  unfold digitsValBE digitsValLE
  rw [List.foldl_reverse]
  congr 1
  funext c a
  omega

theorem digitsValBE_natReprData (n : Nat) :
    digitsValBE (natReprData n) = n := by
  unfold natReprData
  by_cases h : n = 0
  · subst h; rfl
  · simp only [h, if_false]
    rw [digitsValBE_reverse, digitsValLE_natToDigitsRev n n le_rfl]

/-- Python decimal rendering is injective on non-negative integers. -/
theorem pyNatRepr_inj {n m : Nat} (h : pyNatRepr n = pyNatRepr m) : n = m := by
  have hd : natReprData n = natReprData m := congrArg String.data h
  have := digitsValBE_natReprData n
  rw [hd, digitsValBE_natReprData m] at this
  exact this.symm

theorem natToDigitsRev_mem_range : ∀ fuel n c, c ∈ natToDigitsRev fuel n →
    48 ≤ c.toNat ∧ c.toNat ≤ 57 := by
  intro fuel
  induction fuel with
  | zero => intro n c hc; simp [natToDigitsRev] at hc
  | succ f ih =>
    intro n c hc
    match n with
    | 0 => simp [natToDigitsRev] at hc
    | n + 1 =>
      rcases List.mem_cons.mp hc with h | h
      · subst h; exact pyDigitChar_toNat_le (Nat.mod_lt _ (by omega))
      · exact ih _ _ h

theorem natReprData_mem_range {n : Nat} {c : Char} (hc : c ∈ natReprData n) :
    48 ≤ c.toNat ∧ c.toNat ≤ 57 := by
  unfold natReprData at hc
  by_cases h : n = 0
  · subst h; simp at hc; subst hc; exact ⟨by decide, by decide⟩
  · simp only [h, if_false, List.mem_reverse] at hc
    exact natToDigitsRev_mem_range n n c hc

theorem natReprData_ne_nil (n : Nat) : natReprData n ≠ [] := by
  unfold natReprData
  by_cases h : n = 0
  · simp [h]
  · simp only [h, if_false]
    match n, h with
    | n + 1, _ =>
      simp [natToDigitsRev]

theorem natReprData_no_underscore {n : Nat} {c : Char} (hc : c ∈ natReprData n) :
    c ≠ '_' := by
  intro h
  subst h
  have := (natReprData_mem_range hc).2
  revert this
  decide

/-! ### Zero padding and ISO date formatting (embedding of Python
`datetime.date.isoformat`, i.e. `f"{year:04d}-{month:02d}-{day:02d}"`). -/

/-- Character data of `str(n)` left-padded with `'0'` to width `w`
(Python `f"{n:0wd}"` for non-negative `n`). -/
def padData (w n : Nat) : List Char :=
  List.replicate (w - (natReprData n).length) '0' ++ natReprData n

theorem natToDigitsRev_length_le : ∀ fuel n w, n ≤ fuel → n < 10 ^ w →
    (natToDigitsRev fuel n).length ≤ w := by
  intro fuel
  induction fuel with
  | zero => intro n w hn _; interval_cases n; simp [natToDigitsRev]
  | succ f ih =>
    intro n w hn hw
    match n with
    | 0 => simp [natToDigitsRev]
    | n + 1 =>
      have hwpos : 0 < w := by
        by_contra h
        have : w = 0 := by omega
        subst this
        simp at hw
      have hdivfuel : (n + 1) / 10 ≤ f := by
        have : (n + 1) / 10 < n + 1 := Nat.div_lt_self (Nat.succ_pos n) (by omega)
        omega
      have hdivlt : (n + 1) / 10 < 10 ^ (w - 1) := by
        rw [Nat.div_lt_iff_lt_mul (by omega)]
        have : 10 ^ (w - 1) * 10 = 10 ^ w := by
          rw [← pow_succ]
          congr 1
          omega
        omega
      have := ih ((n + 1) / 10) (w - 1) hdivfuel hdivlt
      show (pyDigitChar ((n + 1) % 10) :: natToDigitsRev f ((n + 1) / 10)).length ≤ w
      simp only [List.length_cons]
      omega

theorem natReprData_length_le {n w : Nat} (hw : 0 < w) (hn : n < 10 ^ w) :
    (natReprData n).length ≤ w := by
  unfold natReprData
  by_cases h : n = 0
  · simp [h]; omega
  · simp only [h, if_false, List.length_reverse]
    exact natToDigitsRev_length_le n n w le_rfl hn

theorem padData_length {n w : Nat} (hw : 0 < w) (hn : n < 10 ^ w) :
    (padData w n).length = w := by
  unfold padData
  have := natReprData_length_le hw hn
  simp only [List.length_append, List.length_replicate]
  omega

theorem digitsValBE_replicate_zero (k : Nat) (l : List Char) :
    List.foldl (fun a c => 10 * a + pyCharVal c) 0 (List.replicate k '0' ++ l)
      = digitsValBE l := by
  induction k with
  | zero => rfl
  | succ k ih =>
    rw [List.replicate_succ, List.cons_append, List.foldl_cons]
    have : (10 * 0 + pyCharVal '0') = 0 := by decide
    rw [this]
    exact ih

theorem digitsValBE_padData (w n : Nat) :
    digitsValBE (padData w n) = n := by
  unfold padData digitsValBE
  rw [digitsValBE_replicate_zero, digitsValBE_natReprData]

theorem padData_inj {w n m : Nat} (h : padData w n = padData w m) : n = m := by
  have := digitsValBE_padData w n
  rw [h, digitsValBE_padData w m] at this
  exact this.symm

theorem padData_mem_range {w n : Nat} {c : Char} (hc : c ∈ padData w n) :
    48 ≤ c.toNat ∧ c.toNat ≤ 57 := by
  unfold padData at hc
  rcases List.mem_append.mp hc with h | h
  · have := List.eq_of_mem_replicate h
    subst this
    exact ⟨by decide, by decide⟩
  · exact natReprData_mem_range h

/-- The date held by the parser (`datetime.date`; the parser obtains it from
the session header). Python guarantees `1 ≤ year ≤ 9999`, `1 ≤ month ≤ 12`,
`1 ≤ day ≤ 31`; the identifier proofs only need the digit-width bounds. -/
structure PyDate where
  year : Nat
  month : Nat
  day : Nat
  deriving Repr, DecidableEq

/-- The digit-width bounds guaranteed for every representable Python date. -/
def PyDate.Valid (d : PyDate) : Prop :=
  d.year < 10000 ∧ d.month < 100 ∧ d.day < 100

instance (d : PyDate) : Decidable d.Valid := by
  unfold PyDate.Valid
  infer_instance

/-- Character data of `date.isoformat()`: `YYYY-MM-DD`. -/
def PyDate.isoformatData (d : PyDate) : List Char :=
  padData 4 d.year ++ '-' :: (padData 2 d.month ++ '-' :: padData 2 d.day)

/-- Embedding of `date.isoformat()`. -/
def PyDate.isoformat (d : PyDate) : String := ⟨d.isoformatData⟩

theorem PyDate.isoformatData_inj {d e : PyDate} (hd : d.Valid) (he : e.Valid)
    (h : d.isoformatData = e.isoformatData) : d = e := by
  obtain ⟨hdy, hdm, hdd⟩ := hd
  obtain ⟨hey, hem, hed⟩ := he
  unfold PyDate.isoformatData at h
  have h1 := List.append_inj h (by rw [padData_length (by omega) hdy, padData_length (by omega) hey])
  obtain ⟨hy, hrest⟩ := h1
  have hrest' := List.cons_injective.eq_iff.mp hrest
  have h2 := List.append_inj hrest' (by rw [padData_length (by omega) hdm, padData_length (by omega) hem])
  obtain ⟨hm, hrest2⟩ := h2
  have hrest2' := List.cons_injective.eq_iff.mp hrest2
  cases d
  cases e
  simp only [PyDate.mk.injEq]
  refine ⟨padData_inj hy, padData_inj hm, padData_inj hrest2'⟩

theorem PyDate.isoformatData_no_underscore {d : PyDate} {c : Char}
    (hc : c ∈ d.isoformatData) : c ≠ '_' := by
  unfold PyDate.isoformatData at hc
  intro heq
  subst heq
  rcases List.mem_append.mp hc with h | h
  · have := (padData_mem_range h).2
    revert this
    decide
  · rcases List.mem_cons.mp h with h | h
    · exact absurd h (by decide)
    · rcases List.mem_append.mp h with h | h
      · have := (padData_mem_range h).2
        revert this
        decide
      · rcases List.mem_cons.mp h with h | h
        · exact absurd h (by decide)
        · have := (padData_mem_range h).2
          revert this
          decide

/-! ### `"_".join` and its left inverse (used to prove that the identifier
derivation of `Part._get_id` never collides). -/

/-- Character data of Python `"_".join(parts)`. -/
def joinSepData : List (List Char) → List Char
  | [] => []
  | [l] => l
  | l :: ls => l ++ '_' :: joinSepData ls

/-- Split a character list at every `'_'` (left inverse of `joinSepData`
for underscore-free components). -/
def splitSep : List Char → List (List Char)
  | [] => [[]]
  | c :: cs =>
    if c = '_' then [] :: splitSep cs
    else
      match splitSep cs with
      | [] => [[c]]
      | h :: t => (c :: h) :: t

theorem splitSep_no_sep : ∀ {l : List Char}, '_' ∉ l → splitSep l = [l] := by
  intro l
  induction l with
  | nil => intro _; rfl
  | cons c cs ih =>
    intro h
    have hc : c ≠ '_' := fun hc => h (hc ▸ List.mem_cons_self c cs)
    have hcs : '_' ∉ cs := fun hm => h (List.mem_cons_of_mem c hm)
    unfold splitSep
    simp only [hc, if_false, ih hcs]

theorem splitSep_append : ∀ {l t : List Char}, '_' ∉ l →
    splitSep (l ++ '_' :: t) = l :: splitSep t := by
  intro l
  induction l with
  | nil => intro t _; simp [splitSep]
  | cons c cs ih =>
    intro t h
    have hc : c ≠ '_' := fun hc => h (hc ▸ List.mem_cons_self c cs)
    have hcs : '_' ∉ cs := fun hm => h (List.mem_cons_of_mem c hm)
    show splitSep (c :: (cs ++ '_' :: t)) = (c :: cs) :: splitSep t
    conv_lhs => rw [splitSep]
    simp only [hc, if_false, ih hcs]

theorem splitSep_joinSep : ∀ {L : List (List Char)}, L ≠ [] →
    (∀ l ∈ L, '_' ∉ l) → splitSep (joinSepData L) = L := by
  intro L
  induction L with
  | nil => intro h; exact absurd rfl h
  | cons l ls ih =>
    intro _ hfree
    match ls with
    | [] => exact splitSep_no_sep (hfree l (List.mem_cons_self l []))
    | l2 :: ls' =>
      have : joinSepData (l :: l2 :: ls') = l ++ '_' :: joinSepData (l2 :: ls') := rfl
      rw [this, splitSep_append (hfree l (List.mem_cons_self _ _))]
      rw [ih (by simp) (fun x hx => hfree x (List.mem_cons_of_mem l hx))]

theorem joinSepData_inj {L M : List (List Char)} (hL : L ≠ []) (hM : M ≠ [])
    (hLf : ∀ l ∈ L, '_' ∉ l) (hMf : ∀ l ∈ M, '_' ∉ l)
    (h : joinSepData L = joinSepData M) : L = M := by
  have := splitSep_joinSep hL hLf
  rw [h, splitSep_joinSep hM hMf] at this
  exact this.symm

theorem joinSepData_append_singleton : ∀ {L : List (List Char)} {x : List Char},
    L ≠ [] → joinSepData (L ++ [x]) = joinSepData L ++ '_' :: x := by
  intro L
  induction L with
  | nil => intro x h; exact absurd rfl h
  | cons l ls ih =>
    intro x _
    match ls with
    | [] => rfl
    | l2 :: ls' =>
      show l ++ '_' :: joinSepData ((l2 :: ls') ++ [x])
          = (l ++ '_' :: joinSepData (l2 :: ls')) ++ '_' :: x
      rw [ih (by simp)]
      simp

/-! ### Document-model enumerations (`hansard/entities/speech.py`). -/

/-- `SpeechPartType`: the tripartite segment-type tag. -/
inductive SpeechPartType where
  | INTERJECTION
  | CONTINUATION
  | SPEECH
  deriving Repr, DecidableEq

/-- `ChamberType`. -/
inductive ChamberType where
  | HOR_MAIN
  | HOR_FEDERATION
  | UNKNOWN
  deriving Repr, DecidableEq

/-- `ChamberType.value` (the string value of the Python enum member). -/
def ChamberType.value : ChamberType → String
  | .HOR_MAIN => "main"
  | .HOR_FEDERATION => "federation"
  | .UNKNOWN => "unknown"

/-- `HouseType`. -/
inductive HouseType where
  | SENATE
  | HOR
  deriving Repr, DecidableEq

/-- `HouseType.value`. -/
def HouseType.value : HouseType → String
  | .SENATE => "senate"
  | .HOR => "hor"

/-- `PartType`: ordinary speech segment vs. procedural first-reading marker. -/
inductive PartType where
  | SPEECH
  | FIRST_READING
  deriving Repr, DecidableEq

/-! ### Segments (`Part` / `SpeechPart`, `hansard/entities/speech.py`).

`SpeechPart` extends `Part` in the source; the embedding flattens the
inheritance into one structure carrying every field of `SpeechPart`.
The procedural first-reading marker (a bare `Part`) is embedded
separately as `PlainPart`. -/

/-- The fields of a `SpeechPart` (an ordinary, speaker-attributed segment). -/
structure SpeechPart where
  date : PyDate
  bill_ids : Option (List String)
  house : HouseType
  chamber : ChamberType
  type : PartType
  debate_category : String
  debate_seq : Nat
  subdebate_1_title : String
  subdebate_1_info : Option String
  subdebate_1_seq : Option Nat
  subdebate_2_title : Option String
  subdebate_2_info : Option String
  subdebate_2_seq : Option Nat
  speech_seq : Nat
  part_seq : Nat
  talker_id : String
  speech_content : String
  speech_part_type : SpeechPartType
  deriving Repr, DecidableEq

/-- A bare `Part` (only ever constructed for the first-reading marker). -/
structure PlainPart where
  date : PyDate
  bill_ids : Option (List String)
  house : HouseType
  chamber : ChamberType
  type : PartType
  debate_category : String
  debate_seq : Nat
  subdebate_1_title : String
  subdebate_1_info : Option String
  subdebate_1_seq : Option Nat
  subdebate_2_title : Option String
  subdebate_2_info : Option String
  subdebate_2_seq : Option Nat
  deriving Repr, DecidableEq

/-- `_none_if_none` applied to an optional sequence number, rendered as the
string data `str(val)` or `"none"`. -/
def optSeqData : Option Nat → List Char
  | none => "none".data
  | some n => natReprData n

/-- The `hashable` component list of `Part._get_id` (the seven components
shared by the full segment identifier and the speech identifier; for a
`SpeechPart` the `getattr(self, "speech_seq", "none")` component is the
rendered `speech_seq`). -/
def SpeechPart.idComponents (p : SpeechPart) : List (List Char) :=
  [p.date.isoformatData,
   p.house.value.data,
   p.chamber.value.data,
   natReprData p.debate_seq,
   optSeqData p.subdebate_1_seq,
   optSeqData p.subdebate_2_seq,
   natReprData p.speech_seq]

/-- `Part._get_id("speech")` for a `SpeechPart` — the speech identifier
(`SpeechPart.speech_id` in the source). -/
def SpeechPart.speech_id (p : SpeechPart) : String :=
  ⟨joinSepData p.idComponents⟩

/-- `Part._get_id("part")` for a `SpeechPart` — the full segment identifier
(`Part.part_id` in the source). -/
def SpeechPart.part_id (p : SpeechPart) : String :=
  ⟨joinSepData (p.idComponents ++ [natReprData p.part_seq])⟩

/-! ### Identifier scheme: determinism and collision freedom (§3, §4.1). -/

theorem natReprData_inj {n m : Nat} (h : natReprData n = natReprData m) :
    n = m := pyNatRepr_inj (congrArg String.mk h)

theorem optSeqData_no_underscore : ∀ (o : Option Nat) {c : Char},
    c ∈ optSeqData o → c ≠ '_' := by
  intro o c hc
  cases o with
  | none =>
    intro h
    subst h
    exact absurd hc (by decide)
  | some n => exact natReprData_no_underscore hc

theorem optSeqData_inj : ∀ {o₁ o₂ : Option Nat},
    optSeqData o₁ = optSeqData o₂ → o₁ = o₂ := by
  intro o₁ o₂ h
  cases o₁ with
  | none =>
    cases o₂ with
    | none => rfl
    | some m =>
      exfalso
      have h' : ("none".data : List Char) = natReprData m := h
      have hm : 'n' ∈ natReprData m := by
        rw [← h']
        decide
      have := (natReprData_mem_range hm).2
      revert this
      decide
  | some n =>
    cases o₂ with
    | none =>
      exfalso
      have h' : natReprData n = ("none".data : List Char) := h
      have hm : 'n' ∈ natReprData n := by
        rw [h']
        decide
      have := (natReprData_mem_range hm).2
      revert this
      decide
    | some m => exact congrArg some (natReprData_inj h)

theorem houseValue_data_inj : ∀ {h₁ h₂ : HouseType},
    h₁.value.data = h₂.value.data → h₁ = h₂ := by
  intro h₁ h₂ h
  cases h₁ <;> cases h₂ <;> first | rfl | exact absurd h (by decide)

theorem chamberValue_data_inj : ∀ {c₁ c₂ : ChamberType},
    c₁.value.data = c₂.value.data → c₁ = c₂ := by
  intro c₁ c₂ h
  cases c₁ <;> cases c₂ <;> first | rfl | exact absurd h (by decide)

theorem houseValue_no_underscore : ∀ (h : HouseType) {c : Char},
    c ∈ h.value.data → c ≠ '_' := by
  intro h c hc heq
  subst heq
  cases h <;> exact absurd hc (by decide)

theorem chamberValue_no_underscore : ∀ (ch : ChamberType) {c : Char},
    c ∈ ch.value.data → c ≠ '_' := by
  intro ch c hc heq
  subst heq
  cases ch <;> exact absurd hc (by decide)

theorem SpeechPart.idComponents_no_underscore (p : SpeechPart) :
    ∀ l ∈ p.idComponents, '_' ∉ l := by
  intro l hl hc
  unfold SpeechPart.idComponents at hl
  simp only [List.mem_cons, List.not_mem_nil, or_false] at hl
  rcases hl with h | h | h | h | h | h | h <;> subst h
  · exact PyDate.isoformatData_no_underscore hc rfl
  · exact houseValue_no_underscore p.house hc rfl
  · exact chamberValue_no_underscore p.chamber hc rfl
  · exact natReprData_no_underscore hc rfl
  · exact optSeqData_no_underscore _ hc rfl
  · exact optSeqData_no_underscore _ hc rfl
  · exact natReprData_no_underscore hc rfl

/-- The identifying field tuple of a segment: (date, house, chamber,
debate-seq, subdebate-1-seq, subdebate-2-seq, speech-seq, part-seq). -/
def SpeechPart.idFields (p : SpeechPart) :
    PyDate × HouseType × ChamberType × Nat × Option Nat × Option Nat × Nat × Nat :=
  (p.date, p.house, p.chamber, p.debate_seq, p.subdebate_1_seq,
   p.subdebate_2_seq, p.speech_seq, p.part_seq)

/-- C4. `segment_id` (`part_id`) and `speech_id` are pure deterministic
functions of the segment's identifying field values — two segments with the
same field tuple always receive the same strings — and the full segment
identifier never collides across distinct (date, house, chamber, debate-seq,
subdebate-1-seq, subdebate-2-seq, speech-seq, part-seq) tuples (for the
digit-width bounds every representable Python date satisfies). -/
theorem segment_and_speech_id_pure_and_collision_free :
    (∀ p q : SpeechPart, p.idFields = q.idFields →
      p.part_id = q.part_id ∧ p.speech_id = q.speech_id) ∧
    (∀ p q : SpeechPart, p.date.Valid → q.date.Valid →
      p.part_id = q.part_id → p.idFields = q.idFields) := by
  constructor
  · intro p q h
    unfold SpeechPart.idFields at h
    simp only [Prod.mk.injEq] at h
    obtain ⟨h1, h2, h3, h4, h5, h6, h7, h8⟩ := h
    unfold SpeechPart.part_id SpeechPart.speech_id SpeechPart.idComponents
    rw [h1, h2, h3, h4, h5, h6, h7, h8]
    exact ⟨rfl, rfl⟩
  · intro p q hp hq h
    have hdata : joinSepData (p.idComponents ++ [natReprData p.part_seq])
        = joinSepData (q.idComponents ++ [natReprData q.part_seq]) :=
      congrArg String.data h
    have hfreep : ∀ l ∈ p.idComponents ++ [natReprData p.part_seq], '_' ∉ l := by
      intro l hl
      rcases List.mem_append.mp hl with h' | h'
      · exact p.idComponents_no_underscore l h'
      · simp only [List.mem_singleton] at h'
        subst h'
        intro hc
        exact natReprData_no_underscore hc rfl
    have hfreeq : ∀ l ∈ q.idComponents ++ [natReprData q.part_seq], '_' ∉ l := by
      intro l hl
      rcases List.mem_append.mp hl with h' | h'
      · exact q.idComponents_no_underscore l h'
      · simp only [List.mem_singleton] at h'
        subst h'
        intro hc
        exact natReprData_no_underscore hc rfl
    have hlists := joinSepData_inj (by simp [SpeechPart.idComponents])
      (by simp [SpeechPart.idComponents]) hfreep hfreeq hdata
    unfold SpeechPart.idComponents at hlists
    simp only [List.cons_append, List.nil_append, List.cons.injEq, and_true] at hlists
    obtain ⟨h1, h2, h3, h4, h5, h6, h7, h8⟩ := hlists
    unfold SpeechPart.idFields
    simp only [Prod.mk.injEq]
    exact ⟨PyDate.isoformatData_inj hp hq h1, houseValue_data_inj h2,
      chamberValue_data_inj h3, natReprData_inj h4, optSeqData_inj h5,
      optSeqData_inj h6, natReprData_inj h7, natReprData_inj h8⟩

/-- Witness for C4 at concrete segments. -/
theorem segment_and_speech_id_pure_and_collision_free_witness :
    ∃ p : SpeechPart, p.date.Valid ∧ p.part_id = p.part_id ∧ p.idFields = p.idFields := by
  refine ⟨⟨⟨2025, 10, 9⟩, none, .HOR, .HOR_MAIN, .SPEECH, "BILLS", 3, "T",
    none, some 1, none, none, none, 0, 0, "IMW", "hello", .SPEECH⟩, by decide, ?_, ?_⟩
  · exact (segment_and_speech_id_pure_and_collision_free.1 _ _ rfl).1
  · exact segment_and_speech_id_pure_and_collision_free.2 _ _ (by decide) (by decide) rfl

/-- C5. For every speech-kind segment, the full segment identifier is the
speech identifier followed by `"_"` and the rendered part-sequence — so all
segments of one speech share the speech identifier as a prefix. -/
theorem segment_id_eq_speech_id_append_part_seq (p : SpeechPart) :
    p.part_id = p.speech_id ++ "_" ++ pyNatRepr p.part_seq := by
  apply String.ext
  show joinSepData (p.idComponents ++ [natReprData p.part_seq])
      = (p.speech_id ++ "_" ++ pyNatRepr p.part_seq).data
  rw [joinSepData_append_singleton (by simp [SpeechPart.idComponents])]
  simp only [String.data_append]
  show joinSepData p.idComponents ++ '_' :: natReprData p.part_seq
      = joinSepData p.idComponents ++ ['_'] ++ natReprData p.part_seq
  simp

/-! ### Speeches (`Speech`, `hansard/entities/speech.py`). -/

/-- `Speech`: an ordered collection of segments. -/
structure Speech where
  parts : List SpeechPart
  deriving Repr, DecidableEq

/-- The boolean comparison used to embed Python
`sorted(parts, key=lambda part: part.part_seq)` (a stable sort). -/
def partSeqLe (a b : SpeechPart) : Bool := a.part_seq ≤ b.part_seq

/-- `Speech.from_parts`: raises `ValueError` on an empty list, otherwise
sorts the parts by part-sequence ascending (stably, like Python `sorted`). -/
def Speech.from_parts (parts : List SpeechPart) : Except PyError Speech :=
  if parts.length = 0 then
    .error (.valueError "Speech cannot be empty. Need at least one part.")
  else
    .ok ⟨parts.mergeSort partSeqLe⟩

/-- `Speech.id` — `self.parts[0].speech_id` (`none` models the `IndexError`
that indexing an empty list would raise). -/
def Speech.id (s : Speech) : Option String := s.parts.head?.map SpeechPart.speech_id

/-- `Speech.title` — `self.parts[0].subdebate_1_title`. -/
def Speech.title (s : Speech) : Option String :=
  s.parts.head?.map SpeechPart.subdebate_1_title

/-- `Speech.talker_id` — `self.parts[0].talker_id`. -/
def Speech.talker_id (s : Speech) : Option String :=
  s.parts.head?.map SpeechPart.talker_id

theorem partSeqLe_trans (a b c : SpeechPart) :
    partSeqLe a b → partSeqLe b c → partSeqLe a c := by
  unfold partSeqLe
  simp only [decide_eq_true_eq]
  omega

theorem partSeqLe_total (a b : SpeechPart) : partSeqLe a b || partSeqLe b a := by
  unfold partSeqLe
  simp only [Bool.or_eq_true, decide_eq_true_eq]
  omega

/-- C6. Constructing a `Speech` from zero segments is an error and nothing is
produced; from a non-empty list it succeeds, the segments are ordered by
part-sequence ascending (a permutation of the input), and the speech's
identifier, title and owning speaker are those of the first segment, which
has the lowest part-sequence of all input segments. -/
theorem speech_from_parts_empty_err_nonempty_sorted :
    (Speech.from_parts [] =
      .error (.valueError "Speech cannot be empty. Need at least one part.")) ∧
    (∀ parts : List SpeechPart, parts ≠ [] →
      ∃ s p₀, Speech.from_parts parts = .ok s ∧
        s.parts.head? = some p₀ ∧
        p₀ ∈ parts ∧
        (∀ q ∈ parts, p₀.part_seq ≤ q.part_seq) ∧
        s.parts.Perm parts ∧
        s.parts.Pairwise (fun a b => a.part_seq ≤ b.part_seq) ∧
        s.id = some p₀.speech_id ∧
        s.title = some p₀.subdebate_1_title ∧
        s.talker_id = some p₀.talker_id) := by
  constructor
  · rfl
  · intro parts hne
    have hperm : (parts.mergeSort partSeqLe).Perm parts := List.mergeSort_perm parts _
    have hsortedB : (parts.mergeSort partSeqLe).Pairwise (fun a b => partSeqLe a b) :=
      List.sorted_mergeSort partSeqLe_trans partSeqLe_total parts
    have hsorted : (parts.mergeSort partSeqLe).Pairwise (fun a b => a.part_seq ≤ b.part_seq) :=
      hsortedB.imp (by intro a b h; exact of_decide_eq_true h)
    have hlen : (parts.mergeSort partSeqLe).length = parts.length := hperm.length_eq
    match hms : parts.mergeSort partSeqLe with
    | [] =>
      exfalso
      rw [hms] at hlen
      exact hne (List.length_eq_zero.mp hlen.symm)
    | p₀ :: rest =>
      rw [hms] at hperm hsorted hsortedB
      refine ⟨⟨p₀ :: rest⟩, p₀, ?_, rfl, ?_, ?_, hperm, hsorted, rfl, rfl, rfl⟩
      · unfold Speech.from_parts
        have : parts.length ≠ 0 := fun h => hne (List.length_eq_zero.mp h)
        simp only [this, if_false, hms]
      · exact hperm.mem_iff.mp (List.mem_cons_self _ _)
      · intro q hq
        rcases List.mem_cons.mp (hperm.mem_iff.mpr hq) with h | h
        · rw [h]
        · exact of_decide_eq_true ((List.pairwise_cons.mp hsortedB).1 q h)

/-- Witness for C6 at a concrete part list. -/
theorem speech_from_parts_empty_err_nonempty_sorted_witness :
    ∃ s p₀, Speech.from_parts [⟨⟨2025, 10, 9⟩, none, .HOR, .HOR_MAIN, .SPEECH,
        "BILLS", 0, "T", none, some 0, none, none, none, 0, 0, "IMW", "hi",
        .SPEECH⟩] = .ok s ∧
      s.parts.head? = some p₀ ∧
      p₀ ∈ [⟨⟨2025, 10, 9⟩, none, .HOR, .HOR_MAIN, .SPEECH,
        "BILLS", 0, "T", none, some 0, none, none, none, 0, 0, "IMW", "hi",
        .SPEECH⟩] ∧
      (∀ q ∈ [(⟨⟨2025, 10, 9⟩, none, .HOR, .HOR_MAIN, .SPEECH,
        "BILLS", 0, "T", none, some 0, none, none, none, 0, 0, "IMW", "hi",
        .SPEECH⟩ : SpeechPart)], p₀.part_seq ≤ q.part_seq) ∧
      s.parts.Perm [⟨⟨2025, 10, 9⟩, none, .HOR, .HOR_MAIN, .SPEECH,
        "BILLS", 0, "T", none, some 0, none, none, none, 0, 0, "IMW", "hi",
        .SPEECH⟩] ∧
      s.parts.Pairwise (fun a b => a.part_seq ≤ b.part_seq) ∧
      s.id = some p₀.speech_id ∧
      s.title = some p₀.subdebate_1_title ∧
      s.talker_id = some p₀.talker_id :=
  speech_from_parts_empty_err_nonempty_sorted.2 _ (by simp)

/-! ### Speaker extraction (`hansard/entities/talker.py` and the
module-level `extract_talker` of `hansard/parser.py`). -/

/-- Embedding of Python `str.strip()` (trim whitespace at both ends). -/
def pyStrip (s : String) : String :=
  ⟨((s.data.dropWhile Char.isWhitespace).reverse.dropWhile Char.isWhitespace).reverse⟩

/-- A raw `<talker>` record: the text of each of the four nested tags, or
`none` when the tag is absent. -/
structure RawTalker where
  name : Option String
  id : Option String
  electorate : Option String
  party : Option String
  deriving Repr, DecidableEq

/-- A `Talker` (pydantic model); equality is structural on these four
fields, which is also what the Python `__eq__`/`__hash__` use.
The derived `divisiveness` scores are never set during extraction and are
excluded from equality, so they are not modelled. -/
structure Talker where
  id : Option String
  name : String
  electorate : Option String
  party : Option String
  deriving Repr, DecidableEq

/-- Python truthiness check `not x` for the stripped text of an optional
tag (`true` when the tag is absent or its stripped text is empty). -/
def missingField (o : Option String) : Bool :=
  match o.map pyStrip with
  | none => true
  | some s => s == ""

/-- Membership-preserving deduplication, embedding Python
`list(set(talkers))` (whose iteration order is unspecified). -/
def pySetList : List Talker → List Talker
  | [] => []
  | t :: ts => if t ∈ ts then pySetList ts else t :: pySetList ts

theorem mem_pySetList {t : Talker} : ∀ {l : List Talker}, t ∈ pySetList l ↔ t ∈ l := by
  intro l
  induction l with
  | nil => simp [pySetList]
  | cons s ss ih =>
    unfold pySetList
    by_cases h : s ∈ ss
    · simp only [h, if_true, ih, List.mem_cons]
      constructor
      · exact Or.inr
      · rintro (rfl | hm)
        · exact h
        · exact hm
    · simp only [h, if_false, List.mem_cons, ih]

/-- `Talker.extract_talkers` (`talker.py`): accept a record only when all
four stripped fields are present and non-empty; otherwise log and drop it
and keep going; deduplicate the result. -/
def extract_talkers (records : List RawTalker) : List Talker :=
  pySetList (records.filterMap fun r =>
    match r.name.map pyStrip, r.id.map pyStrip,
        r.electorate.map pyStrip, r.party.map pyStrip with
    | some nm, some i, some e, some p =>
      if nm = "" || i = "" || e = "" || p = "" then none
      else some ⟨some i, nm, some e, some p⟩
    | _, _, _, _ => none)

/-- The module-level `extract_talker` of `parser.py`: only `name` is
required (`ValueError` when missing or empty); `id`, `electorate` and
`party` are passed through as extracted, possibly `None`. (The
`ValidationError` re-raise is unreachable for string inputs.) -/
def extract_talker (r : RawTalker) : Except PyError Talker :=
  match r.name.map pyStrip with
  | none => .error (.valueError "Talker missing required fields")
  | some nm =>
    if nm = "" then .error (.valueError "Talker missing required fields")
    else .ok ⟨r.id.map pyStrip, nm, r.electorate.map pyStrip, r.party.map pyStrip⟩

/-- The loop body of `Parser.parse_talkers`: `extract_talker` on every
`<talker>` in document order, propagating any exception. -/
def collectTalkers : List RawTalker → Except PyError (List Talker)
  | [] => .ok []
  | r :: rs =>
    match extract_talker r with
    | .error e => .error e
    | .ok t =>
      match collectTalkers rs with
      | .error e => .error e
      | .ok ts => .ok (t :: ts)

/-- `Parser.parse_talkers` (`parser.py`): collect then `list(set(...))`. -/
def parse_talkers (records : List RawTalker) : Except PyError (List Talker) :=
  match collectTalkers records with
  | .error e => .error e
  | .ok ts => .ok (pySetList ts)

/-- Counterexample for C7: the speaker-extraction path actually used by the
parser (`Parser.parse_talkers` via `extract_talker`) accepts a record whose
`id`, `electorate` and `party` are all missing — the returned collection
contains a speaker that is not fully populated — and a record with a
missing `name` makes extraction raise `ValueError` instead of being logged
and dropped. -/
theorem talker_extraction_counterexample :
    parse_talkers [⟨some "A", none, none, none⟩] = .ok [⟨none, "A", none, none⟩] ∧
    (⟨none, "A", none, none⟩ : Talker).electorate = none ∧
    parse_talkers [⟨none, some "I", some "E", some "P"⟩]
      = .error (.valueError "Talker missing required fields") := by
  refine ⟨rfl, rfl, rfl⟩

/-- C7 (amended). `Talker.extract_talkers` accepts a record only when all
four of name, id, electorate, party are present and non-empty after
stripping — records missing any field are dropped and extraction continues,
and every returned speaker is fully populated. The parser-side
`extract_talker`, by contrast, validates only `name`: it raises `ValueError`
when `name` is missing or empty, and accepts records whose `id`,
`electorate` or `party` are missing. -/
theorem talker_extraction_validation :
    (∀ (records : List RawTalker) (t : Talker), t ∈ extract_talkers records →
      t.name ≠ "" ∧ (∃ i, t.id = some i ∧ i ≠ "") ∧
      (∃ e, t.electorate = some e ∧ e ≠ "") ∧ (∃ p, t.party = some p ∧ p ≠ "")) ∧
    (∀ (r : RawTalker) (rs : List RawTalker),
      (missingField r.name || missingField r.id || missingField r.electorate
        || missingField r.party) = true →
      extract_talkers (r :: rs) = extract_talkers rs) ∧
    (∀ r : RawTalker,
      (missingField r.name = true →
        extract_talker r = .error (.valueError "Talker missing required fields")) ∧
      (missingField r.name = false →
        ∃ t, extract_talker r = .ok t ∧ t.id = r.id.map pyStrip ∧
          t.electorate = r.electorate.map pyStrip ∧ t.party = r.party.map pyStrip)) := by
  refine ⟨?_, ?_, ?_⟩
  · intro records t ht
    have ht' := mem_pySetList.mp ht
    obtain ⟨r, _, hfr⟩ := List.mem_filterMap.mp ht'
    revert hfr
    cases hn : r.name.map pyStrip with
    | none => intro hfr; exact absurd hfr (by simp)
    | some nm =>
      cases hi : r.id.map pyStrip with
      | none => intro hfr; exact absurd hfr (by simp [hn, hi])
      | some i =>
        cases he : r.electorate.map pyStrip with
        | none => intro hfr; exact absurd hfr (by simp [hn, hi, he])
        | some e =>
          cases hp : r.party.map pyStrip with
          | none => intro hfr; exact absurd hfr (by simp [hn, hi, he, hp])
          | some p =>
            intro hfr
            simp only [hn, hi, he, hp] at hfr
            by_cases hemp : nm = "" || i = "" || e = "" || p = ""
            · rw [if_pos hemp] at hfr
              exact absurd hfr (by simp)
            · rw [if_neg hemp] at hfr
              have h1 : nm ≠ "" := fun h => hemp (by simp [h])
              have h2 : i ≠ "" := fun h => hemp (by simp [h])
              have h3 : e ≠ "" := fun h => hemp (by simp [h])
              have h4 : p ≠ "" := fun h => hemp (by simp [h])
              cases hfr
              exact ⟨h1, ⟨i, rfl, h2⟩, ⟨e, rfl, h3⟩, ⟨p, rfl, h4⟩⟩
  · intro r rs hmiss
    unfold extract_talkers
    congr 1
    show List.filterMap _ (r :: rs) = List.filterMap _ rs
    rw [List.filterMap_cons]
    revert hmiss
    unfold missingField
    cases hn : r.name.map pyStrip with
    | none => intro _; rfl
    | some nm =>
      cases hi : r.id.map pyStrip with
      | none => intro _; rfl
      | some i =>
        cases he : r.electorate.map pyStrip with
        | none => intro _; rfl
        | some e =>
          cases hp : r.party.map pyStrip with
          | none => intro _; rfl
          | some p =>
            simp only [hn, hi, he, hp]
            intro hmiss
            rw [if_pos (by simpa using hmiss)]
  · intro r
    constructor
    · intro hmiss
      unfold missingField at hmiss
      unfold extract_talker
      cases hn : r.name.map pyStrip with
      | none => rfl
      | some nm =>
        rw [hn] at hmiss
        simp only [beq_iff_eq] at hmiss
        show (if nm = "" then
            (Except.error (PyError.valueError "Talker missing required fields") : Except PyError Talker)
          else .ok ⟨r.id.map pyStrip, nm, r.electorate.map pyStrip, r.party.map pyStrip⟩)
          = .error (.valueError "Talker missing required fields")
        rw [if_pos hmiss]
    · intro hpres
      unfold missingField at hpres
      unfold extract_talker
      cases hn : r.name.map pyStrip with
      | none =>
        rw [hn] at hpres
        simp at hpres
      | some nm =>
        rw [hn] at hpres
        simp only [beq_eq_false_iff_ne, ne_eq] at hpres
        refine ⟨⟨r.id.map pyStrip, nm, r.electorate.map pyStrip, r.party.map pyStrip⟩, ?_, rfl, rfl, rfl⟩
        show (if nm = "" then
            (Except.error (PyError.valueError "Talker missing required fields") : Except PyError Talker)
          else .ok ⟨r.id.map pyStrip, nm, r.electorate.map pyStrip, r.party.map pyStrip⟩)
          = .ok ⟨r.id.map pyStrip, nm, r.electorate.map pyStrip, r.party.map pyStrip⟩
        rw [if_neg hpres]

/-- Witness for C7 at concrete records. -/
theorem talker_extraction_validation_witness :
    ((⟨some "83M", "Plibersek", some "Sydney", some "ALP"⟩ : Talker).name ≠ "" ∧
      (∃ i, (⟨some "83M", "Plibersek", some "Sydney", some "ALP"⟩ : Talker).id = some i ∧ i ≠ "") ∧
      (∃ e, (⟨some "83M", "Plibersek", some "Sydney", some "ALP"⟩ : Talker).electorate = some e ∧ e ≠ "") ∧
      (∃ p, (⟨some "83M", "Plibersek", some "Sydney", some "ALP"⟩ : Talker).party = some p ∧ p ≠ "")) ∧
    extract_talkers [⟨some "A", none, none, none⟩,
        ⟨some "Plibersek", some "83M", some "Sydney", some "ALP"⟩]
      = extract_talkers [⟨some "Plibersek", some "83M", some "Sydney", some "ALP"⟩] := by
  constructor
  · exact talker_extraction_validation.1
      [⟨some "Plibersek", some "83M", some "Sydney", some "ALP"⟩] _ (by decide)
  · exact talker_extraction_validation.2.1 _ _ (by decide)

/-! ### Per-speech segmentation (`Parser.parse_speech`, `parser.py`).

Paragraphs are modelled by their marker flags and their
`p.get_text(strip=True)` text. The main talker and the ordered interjector
list are modelled by their ids (the code compares `prev.talker_id` against
`talker.id`). The loop is embedded one paragraph at a time by
`stepParagraph`; note that in the source the continuation `if` is NOT
followed by `elif`/`continue`, so a continuation-marked paragraph also runs
the interjection/ordinary block — the embedding reproduces this. -/

/-- Which interjection marker `is_interjection` reports (checked in the
order member, office, general). -/
inductive InterjectionType where
  | MEMBER
  | OFFICE
  | GENERAL
  deriving Repr, DecidableEq

/-- A `<p>` element, reduced to the markers the classifier looks for and
its extracted text. -/
structure Paragraph where
  member_continuation : Bool
  member_interjecting : Bool
  office_interjecting : Bool
  general_interjecting : Bool
  text : String
  deriving Repr, DecidableEq

/-- `is_interjection` (`parser.py`). -/
def is_interjection (p : Paragraph) : Option InterjectionType :=
  if p.member_interjecting then some .MEMBER
  else if p.office_interjecting then some .OFFICE
  else if p.general_interjecting then some .GENERAL
  else none

/-- `is_continuation` (`parser.py`). -/
def is_continuation (p : Paragraph) : Bool := p.member_continuation

/-! Embedding of `re.sub(PATTERN, "", text, count=1).strip()` with
`PATTERN = re.compile(r".*?(?:\(\d{2}:\d{2}\))?:")`: remove the leftmost,
lazily shortest run of non-newline characters up to a colon (preferring a
colon that closes a `(HH:MM)` timestamp group at the end of the run), then
strip outer whitespace. -/

/-- Try the tail of `PATTERN` — the optional greedy `\(\d{2}:\d{2}\)` group
followed by `:` — at the current position; return the remainder on match. -/
def matchHere : List Char → Option (List Char)
  | '(' :: a :: b :: ':' :: c :: d :: ')' :: ':' :: rest =>
    if a.isDigit && b.isDigit && c.isDigit && d.isDigit then some rest
    else none
  | ':' :: rest => some rest
  | _ => none

/-- Lazy `.*?` scan from one starting position: extend over non-newline
characters until the pattern tail matches; the consumed prefix is part of
the match. -/
def matchFrom (l : List Char) : Option (List Char) :=
  match matchHere l with
  | some rest => some rest
  | none =>
    match l with
    | [] => none
    | c :: cs => if c = '\n' then none else matchFrom cs

/-- `re.sub(PATTERN, "", l, count=1)`: remove the leftmost match, keeping
the characters before its starting position; `none` when there is no
match anywhere. -/
def pySubPattern : List Char → Option (List Char)
  | [] => none
  | c :: cs =>
    match matchFrom (c :: cs) with
    | some rest => some rest
    | none =>
      match pySubPattern cs with
      | some rest' => some (c :: rest')
      | none => none

/-- The text cleaning applied to every newly opened (non-merged) segment. -/
def cleanText (s : String) : String :=
  pyStrip ⟨(pySubPattern s.data).getD s.data⟩

/-- The `self.*` cursor fields read when `parse_speech` constructs a
`SpeechPart` (all set by the enclosing `parse_speeches` traversal by the
time a speech is processed). -/
structure SpCtx where
  date : PyDate
  house : HouseType
  bill_ids : Option (List String)
  chamber : ChamberType
  debate_category : String
  debate_seq : Nat
  subdebate_1_title : String
  subdebate_1_info : Option String
  subdebate_1_seq : Option Nat
  subdebate_2_title : Option String
  subdebate_2_info : Option String
  subdebate_2_seq : Option Nat
  deriving Repr, DecidableEq

/-- The `SpeechPart(...)` constructor call as used in `parse_speech`
(every branch passes `type=PartType.SPEECH`). -/
def mkSpeechPart (ctx : SpCtx) (speech_seq part_seq : Nat) (talker_id : String)
    (spt : SpeechPartType) (content : String) : SpeechPart :=
  { date := ctx.date, bill_ids := ctx.bill_ids, house := ctx.house,
    chamber := ctx.chamber, type := .SPEECH,
    debate_category := ctx.debate_category, debate_seq := ctx.debate_seq,
    subdebate_1_title := ctx.subdebate_1_title,
    subdebate_1_info := ctx.subdebate_1_info,
    subdebate_1_seq := ctx.subdebate_1_seq,
    subdebate_2_title := ctx.subdebate_2_title,
    subdebate_2_info := ctx.subdebate_2_info,
    subdebate_2_seq := ctx.subdebate_2_seq,
    speech_seq := speech_seq, part_seq := part_seq, talker_id := talker_id,
    speech_content := content, speech_part_type := spt }

/-- The loop state of `parse_speech`: the part-sequence counter, the
interjector index `curr_interjection_ind`, the closed segments, and the
open segment `prev_speech_part`. -/
structure SpState where
  part_seq : Nat
  interjection_ind : Nat
  segments : List SpeechPart
  prev : Option SpeechPart
  deriving Repr, DecidableEq

/-- The leading `if is_continuation(p):` block of the paragraph loop
(no `elif`/`continue` follows it in the source, so control always falls
through to the interjection/ordinary block afterwards). -/
def stepContinuation (ctx : SpCtx) (speech_seq : Nat) (main_id : String)
    (st : SpState) (p : Paragraph) : Except PyError SpState :=
  if is_continuation p then
    match st.prev with
    | none => .error (.valueError "Continuation found before any speech part")
    | some prev =>
      if prev.talker_id = main_id then
        .ok { st with prev := some { prev with
          speech_content := prev.speech_content ++ "\n\n" ++ p.text } }
      else
        .ok { st with
          segments := st.segments ++ [prev],
          part_seq := st.part_seq + 1,
          prev := some (mkSpeechPart ctx speech_seq (st.part_seq + 1) main_id
            .CONTINUATION (cleanText p.text)) }
  else .ok st

/-- The `if (interjection_type := is_interjection(p)) is not None: ... else:`
block of the paragraph loop (the `else` is the ordinary-paragraph branch,
with its `assert part_seq == 0`). -/
def stepRest (ctx : SpCtx) (speech_seq : Nat) (main_id : String)
    (interjections : List String) (st : SpState) (p : Paragraph) :
    Except PyError SpState :=
  match is_interjection p with
  | some ity =>
    match st.prev with
    | none => .error (.valueError "Interjection found before any speech part")
    | some prev =>
      if ity = .GENERAL then
        .ok { st with
              segments := st.segments ++ [prev],
              part_seq := st.part_seq + 1,
              prev := some (mkSpeechPart ctx speech_seq (st.part_seq + 1)
                "" SpeechPartType.INTERJECTION "") }
      else
        match interjections.get? st.interjection_ind with
        | none => .ok st
        | some tid =>
          if prev.talker_id = tid then
            .ok { st with prev := some { prev with
              speech_content := prev.speech_content ++ "\n\n" ++ p.text } }
          else
            .ok { st with
                  segments := st.segments ++ [prev],
                  part_seq := st.part_seq + 1,
                  interjection_ind := st.interjection_ind + 1,
                  prev := some (mkSpeechPart ctx speech_seq (st.part_seq + 1) tid
                    .INTERJECTION (cleanText p.text)) }
  | none =>
    match st.prev with
    | none =>
      if st.part_seq = 0 then
        .ok { st with prev := some (mkSpeechPart ctx speech_seq st.part_seq main_id
          .SPEECH (cleanText p.text)) }
      else .error .assertionError
    | some prev =>
      if prev.talker_id = main_id then
        .ok { st with prev := some { prev with
          speech_content := prev.speech_content ++ "\n\n" ++ p.text } }
      else
        .ok { st with
              segments := st.segments ++ [prev],
              part_seq := st.part_seq + 1,
              prev := some (mkSpeechPart ctx speech_seq (st.part_seq + 1) main_id
                SpeechPartType.SPEECH (cleanText p.text)) }

/-- One iteration of the paragraph loop of `parse_speech`. -/
def stepParagraph (ctx : SpCtx) (speech_seq : Nat) (main_id : String)
    (interjections : List String) (st : SpState) (p : Paragraph) :
    Except PyError SpState :=
  match stepContinuation ctx speech_seq main_id st p with
  | .error e => .error e
  | .ok st => stepRest ctx speech_seq main_id interjections st p

/-- The paragraph loop of `parse_speech`. -/
def runParagraphs (ctx : SpCtx) (speech_seq : Nat) (main_id : String)
    (interjections : List String) :
    SpState → List Paragraph → Except PyError SpState
  | st, [] => .ok st
  | st, p :: ps =>
    match stepParagraph ctx speech_seq main_id interjections st p with
    | .error e => .error e
    | .ok st' => runParagraphs ctx speech_seq main_id interjections st' ps

/-- `Parser.parse_speech`: walk the paragraphs from the empty state, then
close whatever segment remains open. -/
def parse_speech (ctx : SpCtx) (speech_seq : Nat) (main_id : String)
    (interjections : List String) (paragraphs : List Paragraph) :
    Except PyError (List SpeechPart) :=
  match runParagraphs ctx speech_seq main_id interjections
      ⟨0, 0, [], none⟩ paragraphs with
  | .error e => .error e
  | .ok st => .ok (st.segments ++ st.prev.toList)

/-- A concrete traversal context used by the concrete evaluations below. -/
def exCtx : SpCtx :=
  ⟨⟨2025, 10, 9⟩, .HOR, none, .HOR_MAIN, "BILLS", 0, "T", none, some 0,
   none, none, none⟩

/-- An ordinary paragraph with the given text. -/
def ordPara (t : String) : Paragraph := ⟨false, false, false, false, t⟩

/-- A continuation-marked paragraph with the given text. -/
def contPara (t : String) : Paragraph := ⟨true, false, false, false, t⟩

/-- A member-interjection paragraph with the given text. -/
def memIntPara (t : String) : Paragraph := ⟨false, true, false, false, t⟩

/-- A general-interjection paragraph with the given text. -/
def genIntPara (t : String) : Paragraph := ⟨false, false, false, true, t⟩

/-- C1 (divergence witness). A continuation-marked paragraph whose open
segment is owned by the primary speaker has its text appended TWICE: the
continuation block merges it and, because no `continue`/`elif` follows,
control falls into the ordinary-paragraph branch, which merges it again.
The spec says the text is appended exactly once. -/
theorem continuation_merge_appends_text_twice :
    parse_speech exCtx 0 "M" [] [ordPara "Hello", contPara "World"]
      = .ok [mkSpeechPart exCtx 0 0 "M" .SPEECH "Hello\n\nWorld\n\nWorld"] ∧
    "Hello\n\nWorld\n\nWorld" ≠ "Hello\n\nWorld" := by
  constructor
  · rfl
  · decide

/-- Counterexample for C2. With interjector list `["X", "X", "Y"]` and three
attributable interjection paragraphs, the second one merges into the open
segment owned by `"X"` and the interjector index does NOT advance (it stays
at 1, where the claim requires it to reach 3 after three attributable
paragraphs): the third paragraph re-reads `"X"` and merges as well, so the
speech ends with two segments and `"Y"` is never consumed. -/
theorem interjector_index_not_advanced_on_merge :
    parse_speech exCtx 0 "M" ["X", "X", "Y"]
      [ordPara "a", memIntPara "b", memIntPara "c", memIntPara "d"]
      = .ok [mkSpeechPart exCtx 0 0 "M" .SPEECH "a",
             mkSpeechPart exCtx 0 1 "X" .INTERJECTION "b\n\nc\n\nd"] ∧
    (runParagraphs exCtx 0 "M" ["X", "X", "Y"] ⟨0, 0, [], none⟩
      [ordPara "a", memIntPara "b", memIntPara "c", memIntPara "d"]).map
        SpState.interjection_ind = .ok 1 := by
  exact ⟨rfl, rfl⟩

/-- C2 (amended). For an interjection paragraph with an open segment:
a general interjection closes the open segment and opens an empty
placeholder without touching the interjector index; an attributable
interjection with the list exhausted is skipped entirely without raising;
an attributable interjection whose next interjector owns the open segment
merges into it and does NOT advance the index; only an attributable
interjection that opens a new INTERJECTION segment advances the index, by
exactly one. -/
theorem interjector_index_advance_rules (ctx : SpCtx) (speech_seq : Nat)
    (main_id : String) (interjections : List String) (st : SpState)
    (p : Paragraph) (prev : SpeechPart) (hopen : st.prev = some prev)
    (hnc : is_continuation p = false) :
    (is_interjection p = some .GENERAL →
      stepParagraph ctx speech_seq main_id interjections st p
        = .ok { st with
                segments := st.segments ++ [prev],
                part_seq := st.part_seq + 1,
                prev := some (mkSpeechPart ctx speech_seq (st.part_seq + 1)
                  "" SpeechPartType.INTERJECTION "") }) ∧
    (∀ ity, is_interjection p = some ity → ity ≠ .GENERAL →
      (interjections.get? st.interjection_ind = none →
        stepParagraph ctx speech_seq main_id interjections st p = .ok st) ∧
      (∀ tid, interjections.get? st.interjection_ind = some tid →
        (prev.talker_id = tid →
          stepParagraph ctx speech_seq main_id interjections st p
            = .ok { st with prev := some { prev with
                speech_content := prev.speech_content ++ "\n\n" ++ p.text } }) ∧
        (prev.talker_id ≠ tid →
          stepParagraph ctx speech_seq main_id interjections st p
            = .ok { st with
                    segments := st.segments ++ [prev],
                    part_seq := st.part_seq + 1,
                    interjection_ind := st.interjection_ind + 1,
                    prev := some (mkSpeechPart ctx speech_seq (st.part_seq + 1)
                      tid .INTERJECTION (cleanText p.text)) }))) := by
  have hstep : stepParagraph ctx speech_seq main_id interjections st p
      = stepRest ctx speech_seq main_id interjections st p := by
    unfold stepParagraph stepContinuation
    rw [hnc]
    simp
  constructor
  · intro hgen
    rw [hstep]
    unfold stepRest
    rw [hgen, hopen]
    simp
  · intro ity hity hne
    constructor
    · intro hexh
      rw [hstep]
      unfold stepRest
      rw [hity, hopen]
      simp only [if_neg hne, hexh]
    · intro tid htid
      constructor
      · intro heq
        rw [hstep]
        unfold stepRest
        rw [hity, hopen]
        simp only [if_neg hne, htid, if_pos heq]
      · intro hneq
        rw [hstep]
        unfold stepRest
        rw [hity, hopen]
        simp only [if_neg hne, htid, if_neg hneq]

/-- Witness for C2 (amended) at a concrete state and paragraph. -/
theorem interjector_index_advance_rules_witness :
    stepParagraph exCtx 0 "M" ["X"]
      ⟨1, 0, [], some (mkSpeechPart exCtx 0 0 "M" .SPEECH "a")⟩ (memIntPara "b")
      = .ok { part_seq := 2, interjection_ind := 1,
              segments := [mkSpeechPart exCtx 0 0 "M" .SPEECH "a"],
              prev := some (mkSpeechPart exCtx 0 2 "X" .INTERJECTION "b") } := by
  have h := ((interjector_index_advance_rules exCtx 0 "M" ["X"]
      ⟨1, 0, [], some (mkSpeechPart exCtx 0 0 "M" .SPEECH "a")⟩ (memIntPara "b")
      (mkSpeechPart exCtx 0 0 "M" .SPEECH "a") rfl rfl).2
      .MEMBER rfl (by decide)).2 "X" rfl
  have h2 := (h.2 (by decide))
  rw [h2]
  rfl

/-- C9. If the first paragraph of a speech carries any interjection marker —
including the general sub-kind — `parse_speech` raises a `ValueError` for
that speech: the no-open-segment check runs before the interjection
sub-kind is distinguished. -/
theorem first_paragraph_interjection_is_fatal (ctx : SpCtx) (speech_seq : Nat)
    (main_id : String) (interjections : List String) (p : Paragraph)
    (ps : List Paragraph) (h : (is_interjection p).isSome = true) :
    ∃ msg, parse_speech ctx speech_seq main_id interjections (p :: ps)
      = .error (.valueError msg) := by
  obtain ⟨ity, hity⟩ := Option.isSome_iff_exists.mp h
  have hstep : ∃ msg, stepParagraph ctx speech_seq main_id interjections
      ⟨0, 0, [], none⟩ p = .error (.valueError msg) := by
    unfold stepParagraph stepContinuation
    by_cases hc : is_continuation p
    · rw [if_pos hc]
      exact ⟨"Continuation found before any speech part", rfl⟩
    · rw [if_neg hc]
      refine ⟨"Interjection found before any speech part", ?_⟩
      show stepRest ctx speech_seq main_id interjections ⟨0, 0, [], none⟩ p = _
      unfold stepRest
      rw [hity]
  obtain ⟨msg, hmsg⟩ := hstep
  refine ⟨msg, ?_⟩
  unfold parse_speech runParagraphs
  rw [hmsg]

/-- Witness for C9: a general-interjection paragraph in first position. -/
theorem first_paragraph_interjection_is_fatal_witness :
    ∃ msg, parse_speech exCtx 0 "M" [] [genIntPara "hear, hear"]
      = .error (.valueError msg) :=
  first_paragraph_interjection_is_fatal exCtx 0 "M" [] (genIntPara "hear, hear")
    [] (by decide)

/-! ### The part-sequence invariant of `parse_speech` (C10). -/

/-- The loop invariant: while no segment is open the part-sequence counter
is still 0 and nothing has been closed, and the first segment of the
eventual output (closed segments followed by the open one) has
part-sequence 0. -/
def SpInv (st : SpState) : Prop :=
  (st.prev = none → st.part_seq = 0 ∧ st.segments = []) ∧
  (∀ q, (st.segments ++ st.prev.toList).head? = some q → q.part_seq = 0)

theorem head?_append_singleton {α : Type} (l : List α) (a : α) :
    (l ++ [a]).head? = some (l.headD a) := by
  cases l <;> simp

theorem SpInv_merge {st : SpState} {prev : SpeechPart} (c : String)
    (hInv : SpInv st) (hopen : st.prev = some prev) :
    SpInv { st with prev := some { prev with speech_content := c } } := by
  constructor
  · intro h
    simp at h
  · intro q hq
    have h0 : (st.segments.headD prev).part_seq = 0 := by
      apply hInv.2
      rw [hopen, Option.toList_some, head?_append_singleton]
    rw [show ({ st with prev := some { prev with speech_content := c } } : SpState).prev
        = some { prev with speech_content := c } from rfl] at hq
    rw [Option.toList_some, head?_append_singleton] at hq
    have hq' : q = st.segments.headD { prev with speech_content := c } :=
      (Option.some.inj hq).symm
    subst hq'
    cases hseg : st.segments with
    | nil =>
      rw [hseg] at h0
      simpa using h0
    | cons s0 rest =>
      rw [hseg] at h0
      simpa using h0

theorem SpInv_closeOpen {st : SpState} {prev : SpeechPart} (npart : SpeechPart)
    (ind : Nat) (hInv : SpInv st) (hopen : st.prev = some prev) :
    SpInv { st with
            segments := st.segments ++ [prev],
            part_seq := st.part_seq + 1,
            interjection_ind := ind,
            prev := some npart } := by
  constructor
  · intro h
    simp at h
  · intro q hq
    have h0 : (st.segments.headD prev).part_seq = 0 := by
      apply hInv.2
      rw [hopen, Option.toList_some, head?_append_singleton]
    rw [show ({ st with
            segments := st.segments ++ [prev],
            part_seq := st.part_seq + 1,
            interjection_ind := ind,
            prev := some npart } : SpState).prev = some npart from rfl] at hq
    rw [show ({ st with
            segments := st.segments ++ [prev],
            part_seq := st.part_seq + 1,
            interjection_ind := ind,
            prev := some npart } : SpState).segments = st.segments ++ [prev] from rfl] at hq
    rw [Option.toList_some, head?_append_singleton] at hq
    have hq' : q = (st.segments ++ [prev]).headD npart := (Option.some.inj hq).symm
    subst hq'
    cases hseg : st.segments with
    | nil =>
      rw [hseg] at h0
      simpa using h0
    | cons s0 rest =>
      rw [hseg] at h0
      simpa using h0

theorem SpInv_openFirst {st : SpState} (npart : SpeechPart) (hInv : SpInv st)
    (hopen : st.prev = none) (hp : npart.part_seq = st.part_seq) :
    SpInv { st with prev := some npart } := by
  obtain ⟨h0, hseg⟩ := hInv.1 hopen
  constructor
  · intro h
    simp at h
  · intro q hq
    rw [show ({ st with prev := some npart } : SpState).prev = some npart from rfl,
        show ({ st with prev := some npart } : SpState).segments = st.segments from rfl,
        hseg, Option.toList_some] at hq
    have : q = npart := by simpa using hq.symm
    subst this
    omega

theorem stepContinuation_error_shape {ctx : SpCtx} {ss : Nat} {mid : String}
    {st : SpState} {p : Paragraph} {e : PyError}
    (h : stepContinuation ctx ss mid st p = .error e) :
    e = .valueError "Continuation found before any speech part" := by
  unfold stepContinuation at h
  by_cases hc : is_continuation p = true
  · rw [if_pos hc] at h
    cases hopen : st.prev with
    | none =>
      rw [hopen] at h
      dsimp only at h
      exact (Except.error.inj h).symm
    | some prev =>
      rw [hopen] at h
      dsimp only at h
      by_cases ht : prev.talker_id = mid
      · rw [if_pos ht] at h
        exact absurd h (by simp)
      · rw [if_neg ht] at h
        exact absurd h (by simp)
  · rw [if_neg hc] at h
    exact absurd h (by simp)

theorem stepContinuation_inv {ctx : SpCtx} {ss : Nat} {mid : String}
    {st : SpState} {p : Paragraph} (hInv : SpInv st) :
    ∀ st', stepContinuation ctx ss mid st p = .ok st' → SpInv st' := by
  intro st' h
  unfold stepContinuation at h
  by_cases hc : is_continuation p = true
  · rw [if_pos hc] at h
    cases hopen : st.prev with
    | none =>
      rw [hopen] at h
      exact absurd h (by simp)
    | some prev =>
      rw [hopen] at h
      dsimp only at h
      by_cases ht : prev.talker_id = mid
      · rw [if_pos ht] at h
        have h2 := Except.ok.inj h
        subst h2
        exact SpInv_merge _ hInv hopen
      · rw [if_neg ht] at h
        have h2 := Except.ok.inj h
        subst h2
        exact SpInv_closeOpen _ _ hInv hopen
  · rw [if_neg hc] at h
    have h2 := Except.ok.inj h
    subst h2
    exact hInv

theorem stepRest_inv {ctx : SpCtx} {ss : Nat} {mid : String}
    {ints : List String} {st : SpState} {p : Paragraph} (hInv : SpInv st) :
    (stepRest ctx ss mid ints st p ≠ .error .assertionError) ∧
    (∀ st', stepRest ctx ss mid ints st p = .ok st' → SpInv st') := by
  unfold stepRest
  cases hI : is_interjection p with
  | some ity =>
    dsimp only
    cases hopen : st.prev with
    | none =>
      dsimp only
      constructor
      · intro h
        simp at h
      · intro st' h
        exact absurd h (by simp)
    | some prev =>
      dsimp only
      by_cases hg : ity = .GENERAL
      · rw [if_pos hg]
        constructor
        · intro h
          simp at h
        · intro st' h
          have h2 := Except.ok.inj h
          subst h2
          exact SpInv_closeOpen _ _ hInv hopen
      · rw [if_neg hg]
        cases hget : ints.get? st.interjection_ind with
        | none =>
          dsimp only
          constructor
          · intro h
            simp at h
          · intro st' h
            have h2 := Except.ok.inj h
            subst h2
            exact hInv
        | some tid =>
          dsimp only
          by_cases ht : prev.talker_id = tid
          · rw [if_pos ht]
            constructor
            · intro h
              simp at h
            · intro st' h
              have h2 := Except.ok.inj h
              subst h2
              exact SpInv_merge _ hInv hopen
          · rw [if_neg ht]
            constructor
            · intro h
              simp at h
            · intro st' h
              have h2 := Except.ok.inj h
              subst h2
              exact SpInv_closeOpen _ _ hInv hopen
  | none =>
    dsimp only
    cases hopen : st.prev with
    | none =>
      dsimp only
      have h0 : st.part_seq = 0 := (hInv.1 hopen).1
      rw [if_pos h0]
      constructor
      · intro h
        simp at h
      · intro st' h
        have h2 := Except.ok.inj h
        subst h2
        exact SpInv_openFirst _ hInv hopen rfl
    | some prev =>
      dsimp only
      by_cases ht : prev.talker_id = mid
      · rw [if_pos ht]
        constructor
        · intro h
          simp at h
        · intro st' h
          have h2 := Except.ok.inj h
          subst h2
          exact SpInv_merge _ hInv hopen
      · rw [if_neg ht]
        constructor
        · intro h
          simp at h
        · intro st' h
          have h2 := Except.ok.inj h
          subst h2
          exact SpInv_closeOpen _ _ hInv hopen

theorem stepParagraph_inv {ctx : SpCtx} {ss : Nat} {mid : String}
    {ints : List String} {st : SpState} {p : Paragraph} (hInv : SpInv st) :
    (stepParagraph ctx ss mid ints st p ≠ .error .assertionError) ∧
    (∀ st', stepParagraph ctx ss mid ints st p = .ok st' → SpInv st') := by
  unfold stepParagraph
  cases hA : stepContinuation ctx ss mid st p with
  | error e =>
    dsimp only
    constructor
    · intro h
      have he := Except.error.inj h
      have := stepContinuation_error_shape hA
      rw [he] at this
      exact absurd this (by simp)
    · intro st' h
      exact absurd h (by simp)
  | ok stm =>
    dsimp only
    exact stepRest_inv (stepContinuation_inv hInv stm hA)

theorem runParagraphs_inv (ctx : SpCtx) (ss : Nat) (mid : String)
    (ints : List String) : ∀ (ps : List Paragraph) (st : SpState), SpInv st →
    (runParagraphs ctx ss mid ints st ps ≠ .error .assertionError) ∧
    (∀ st', runParagraphs ctx ss mid ints st ps = .ok st' → SpInv st') := by
  intro ps
  induction ps with
  | nil =>
    intro st hInv
    constructor
    · intro h
      exact absurd h (by simp [runParagraphs])
    · intro st' h
      unfold runParagraphs at h
      have h2 := Except.ok.inj h
      subst h2
      exact hInv
  | cons p ps ih =>
    intro st hInv
    unfold runParagraphs
    cases hA : stepParagraph ctx ss mid ints st p with
    | error e =>
      dsimp only
      constructor
      · intro h
        have he := Except.error.inj h
        rw [he] at hA
        exact (stepParagraph_inv hInv).1 hA
      · intro st' h
        exact absurd h (by simp)
    | ok st1 =>
      dsimp only
      exact ih st1 ((stepParagraph_inv hInv).2 st1 hA)

/-- C10. The `assert part_seq == 0` in the ordinary-paragraph branch of
`parse_speech` can never fail — whenever that branch finds no open segment
the part-sequence counter is 0 — and consequently the first segment emitted
for any speech has part-sequence 0. -/
theorem ordinary_branch_part_seq_zero (ctx : SpCtx) (ss : Nat) (mid : String)
    (ints : List String) (ps : List Paragraph) :
    (parse_speech ctx ss mid ints ps ≠ .error .assertionError) ∧
    (∀ segs q, parse_speech ctx ss mid ints ps = .ok segs →
      segs.head? = some q → q.part_seq = 0) := by
  have hinit : SpInv ⟨0, 0, [], none⟩ := by
    constructor
    · intro _
      exact ⟨rfl, rfl⟩
    · intro q hq
      simp at hq
  have hrun := runParagraphs_inv ctx ss mid ints ps ⟨0, 0, [], none⟩ hinit
  unfold parse_speech
  cases hA : runParagraphs ctx ss mid ints ⟨0, 0, [], none⟩ ps with
  | error e =>
    dsimp only
    constructor
    · intro h
      have he := Except.error.inj h
      rw [he] at hA
      exact hrun.1 hA
    · intro segs q h
      exact absurd h (by simp)
  | ok st =>
    dsimp only
    have hInv := hrun.2 st hA
    constructor
    · intro h
      exact absurd h (by simp)
    · intro segs q h hq
      have hs := Except.ok.inj h
      subst hs
      exact hInv.2 q hq

/-- Witness for C10 at a concrete one-paragraph speech. -/
theorem ordinary_branch_part_seq_zero_witness :
    (mkSpeechPart exCtx 0 0 "M" .SPEECH "x").part_seq = 0 :=
  (ordinary_branch_part_seq_zero exCtx 0 "M" [] [ordPara "x"]).2
    [mkSpeechPart exCtx 0 0 "M" .SPEECH "x"]
    (mkSpeechPart exCtx 0 0 "M" .SPEECH "x") rfl rfl

/-! ### The document traversal (`Parser.parse` / `Parser.parse_speeches`).

The already-parsed markup tree is modelled by the values the traversal
extracts from it: each `<speech>` by the id of its `talk.start` talker, the
ids of its interjection talkers in document order, and its paragraphs; each
subdebate by its extracted title/info and children; each debate by its
extracted category and `<subdebate.1>` children; each chamber section by
its `CHAMBER_MAP` tag value and its `<debate>` descendants. -/

/-- A `<speech>` element. -/
structure SpeechNode where
  main_id : String
  interjections : List String
  paragraphs : List Paragraph
  deriving Repr, DecidableEq

/-- A `<subdebate.2>` element. -/
structure Subdebate2 where
  title : Option String
  info : Option String
  speeches : List SpeechNode
  deriving Repr, DecidableEq

/-- A `<subdebate.1>` element (`bill_anchors` are the `href`s of its
`<a type="Bill">` descendants, in document order). -/
structure Subdebate1 where
  title : Option String
  info : Option String
  bill_anchors : List String
  speeches : List SpeechNode
  subdebate2s : List Subdebate2
  deriving Repr, DecidableEq

/-- A `<debate>` element. -/
structure DebateNode where
  category : Option String
  subdebate1s : List Subdebate1
  deriving Repr, DecidableEq

/-- One chamber section (`<chamber.xscript>` or `<fedchamb.xscript>`),
already mapped through `CHAMBER_MAP`. -/
structure ChamberNode where
  chamber : ChamberType
  debates : List DebateNode
  deriving Repr, DecidableEq

/-- `extract_bill_ids`: the `href` list, or `None` when there are no
bill anchors. -/
def extract_bill_ids (s1 : Subdebate1) : Option (List String) :=
  if s1.bill_anchors.isEmpty then none else some s1.bill_anchors

/-- A segment as accumulated into `self.parts`: either the procedural
first-reading marker (a bare `Part`) or a speech segment. -/
inductive OutPart where
  | plain (p : PlainPart)
  | speech (p : SpeechPart)
  deriving Repr, DecidableEq

/-- The subdebate-1 sequence number carried by an emitted segment. -/
def OutPart.sub1Seq : OutPart → Option Nat
  | .plain p => p.subdebate_1_seq
  | .speech p => p.subdebate_1_seq

/-- The speech-sequence number carried by an emitted segment (`none` for
the first-reading marker, which has no speech-sequence). -/
def OutPart.speechSeqOf : OutPart → Option Nat
  | .plain _ => none
  | .speech p => some p.speech_seq

/-- The mutable cursor of `Parser` (`self.*`), threaded explicitly.
`self.speech_id` is only ever `None` (it is never assigned after
`__init__`) and is read only inside log messages, so it is not modelled. -/
structure PState where
  date : PyDate
  house : HouseType
  chamber : ChamberType
  bill_ids : Option (List String)
  debate_category : Option String
  debate_seq : Nat
  subdebate_1_title : Option String
  subdebate_1_info : Option String
  subdebate_1_seq : Option Nat
  subdebate_2_title : Option String
  subdebate_2_info : Option String
  subdebate_2_seq : Option Nat
  speech_seq : Nat
  speech_ids : List String
  parts : List OutPart
  deriving Repr, DecidableEq

/-- The cursor as initialised by `Parser.__init__`. -/
def initState (house : HouseType) (date : PyDate) : PState :=
  ⟨date, house, .UNKNOWN, none, none, 0, none, none, none, none, none, none,
   0, [], []⟩

/-- Run `parse_speech` against the current cursor. The required string
fields `debate_category` and `subdebate_1_title` are always set by the time
the traversal reaches a speech; constructing a `SpeechPart` with `None`
there would be a pydantic `ValidationError`. -/
def runSpeechNode (st : PState) (ss : Nat) (sp : SpeechNode) :
    Except PyError (List SpeechPart) :=
  match st.debate_category, st.subdebate_1_title with
  | some cat, some t1 =>
    parse_speech
      ⟨st.date, st.house, st.bill_ids, st.chamber, cat, st.debate_seq, t1,
       st.subdebate_1_info, st.subdebate_1_seq, st.subdebate_2_title,
       st.subdebate_2_info, st.subdebate_2_seq⟩
      ss sp.main_id sp.interjections sp.paragraphs
  | _, _ => .error .validationError

/-- `set.update`: add the ids not yet present, keeping one copy of each. -/
def updateSpeechIds (s : List String) (new : List String) : List String :=
  new.foldl (fun acc x => if x ∈ acc then acc else acc ++ [x]) s

/-- The loop body for a speech directly under a `<subdebate.1>`. When the
speech yields no parts, the warning f-string references the unbound local
name `speech_id` (not `self.speech_id`), so Python raises `NameError`. -/
def processSpeech1 (st : PState) (sp : SpeechNode) : Except PyError PState :=
  match runSpeechNode st st.speech_seq sp with
  | .error e => .error e
  | .ok speechParts =>
    if speechParts.isEmpty then
      .error (.nameError "speech_id")
    else
      .ok { st with
            parts := st.parts ++ speechParts.map OutPart.speech,
            speech_ids := updateSpeechIds st.speech_ids
              (speechParts.map SpeechPart.speech_id),
            speech_seq := st.speech_seq + 1 }

/-- The loop body for a speech under a `<subdebate.2>` (here the empty
case logs `self.speech_id`, which is defined, and continues). -/
def processSpeech2 (st : PState) (sp : SpeechNode) : Except PyError PState :=
  match runSpeechNode st st.speech_seq sp with
  | .error e => .error e
  | .ok speechParts =>
    .ok { st with
          speech_ids := updateSpeechIds st.speech_ids
            (speechParts.map SpeechPart.speech_id),
          parts := st.parts ++ speechParts.map OutPart.speech,
          speech_seq := st.speech_seq + 1 }

/-- The speech loop under a `<subdebate.1>`. -/
def processSpeechList1 : PState → List SpeechNode → Except PyError PState
  | st, [] => .ok st
  | st, sp :: sps =>
    match processSpeech1 st sp with
    | .error e => .error e
    | .ok st' => processSpeechList1 st' sps

/-- The speech loop under a `<subdebate.2>`. -/
def processSpeechList2 : PState → List SpeechNode → Except PyError PState
  | st, [] => .ok st
  | st, sp :: sps =>
    match processSpeech2 st sp with
    | .error e => .error e
    | .ok st' => processSpeechList2 st' sps

/-- One `<subdebate.2>` iteration: set title/info; skip (keeping the set
fields) when the title is missing; emit the first-reading marker when the
title is exactly "First Reading"; run the speeches; clear the fields, reset
the speech-sequence and bump the subdebate-2 sequence (which is an `int` at
this point — `None + 1` would be a `TypeError`). -/
def processSub2 (st0 : PState) (s2 : Subdebate2) : Except PyError PState :=
  let st := { st0 with subdebate_2_title := s2.title, subdebate_2_info := s2.info }
  match s2.title with
  | none => .ok st
  | some t2 =>
    let stfr : Except PyError PState :=
      if t2 = "First Reading" then
        match st.debate_category, st.subdebate_1_title with
        | some cat, some t1 =>
          .ok { st with parts := st.parts ++ [OutPart.plain
            ⟨st.date, st.bill_ids, st.house, st.chamber, .FIRST_READING, cat,
             st.debate_seq, t1, st.subdebate_1_info, st.subdebate_1_seq,
             st.subdebate_2_title, st.subdebate_2_info, st.subdebate_2_seq⟩] }
        | _, _ => .error .validationError
      else .ok st
    match stfr with
    | .error e => .error e
    | .ok st =>
      match processSpeechList2 st s2.speeches with
      | .error e => .error e
      | .ok st =>
        match st.subdebate_2_seq with
        | none => .error .typeError
        | some k =>
          .ok { st with
                subdebate_2_title := none, subdebate_2_info := none,
                speech_seq := 0, subdebate_2_seq := some (k + 1) }

/-- The `<subdebate.2>` loop. -/
def processSub2List : PState → List Subdebate2 → Except PyError PState
  | st, [] => .ok st
  | st, s2 :: s2s =>
    match processSub2 st s2 with
    | .error e => .error e
    | .ok st' => processSub2List st' s2s

/-- One `<subdebate.1>` iteration. -/
def processSub1 (st0 : PState) (s1 : Subdebate1) : Except PyError PState :=
  let st := { st0 with
    bill_ids := if st0.debate_category = some "BILLS" then extract_bill_ids s1
      else none,
    subdebate_1_title := s1.title,
    subdebate_1_info := s1.info }
  match s1.title with
  | none => .ok st
  | some _ =>
    match processSpeechList1 st s1.speeches with
    | .error e => .error e
    | .ok st =>
      match processSub2List { st with subdebate_2_seq := some 0, speech_seq := 0 }
          s1.subdebate2s with
      | .error e => .error e
      | .ok st =>
        match st.subdebate_1_seq with
        | none => .error .typeError
        | some k =>
          .ok { st with
                bill_ids := none, subdebate_1_title := none,
                subdebate_1_info := none, subdebate_1_seq := some (k + 1) }

/-- The `<subdebate.1>` loop. -/
def processSub1List : PState → List Subdebate1 → Except PyError PState
  | st, [] => .ok st
  | st, s1 :: s1s =>
    match processSub1 st s1 with
    | .error e => .error e
    | .ok st' => processSub1List st' s1s

/-- One `<debate>` iteration: a debate with no determinable category is
skipped (no debate-sequence increment); otherwise the subdebate-1 sequence
is reset to 0, the subdebates are walked, and the debate-sequence is
incremented. -/
def processDebate (st0 : PState) (d : DebateNode) : Except PyError PState :=
  let st := { st0 with debate_category := d.category }
  match d.category with
  | none => .ok st
  | some _ =>
    match processSub1List { st with subdebate_1_seq := some 0 } d.subdebate1s with
    | .error e => .error e
    | .ok st =>
      .ok { st with debate_category := none, debate_seq := st.debate_seq + 1 }

/-- `Parser.parse_speeches` on one chamber section's debates. -/
def parse_speeches : PState → List DebateNode → Except PyError PState
  | st, [] => .ok st
  | st, d :: ds =>
    match processDebate st d with
    | .error e => .error e
    | .ok st' => parse_speeches st' ds

/-- One chamber section in `Parser.parse`: set `self.chamber` from
`CHAMBER_MAP` and run `parse_speeches`. -/
def processChamber (st : PState) (ch : ChamberNode) : Except PyError PState :=
  parse_speeches { st with chamber := ch.chamber } ch.debates

/-- The chamber loop of `Parser.parse`. -/
def parseChambers : PState → List ChamberNode → Except PyError PState
  | st, [] => .ok st
  | st, ch :: chs =>
    match processChamber st ch with
    | .error e => .error e
    | .ok st' => parseChambers st' chs

/-- `Parser.parse` from a fresh parser. -/
def parse (house : HouseType) (date : PyDate) (chambers : List ChamberNode) :
    Except PyError PState :=
  parseChambers (initState house date) chambers

/-- C3 (divergence witness). A document whose single `<subdebate.1>` speech
yields no parts (a valid `talk.start` talker but no `<p>` elements) makes
the traversal raise `NameError` — the warning f-string at the
subdebate-1 speech loop references the unbound local name `speech_id` — so
an error that is neither of the two structural invariant violations
propagates out of the segmentation engine instead of the gap being logged
and skipped. -/
theorem no_parts_speech_raises_nameError :
    parse .HOR ⟨2025, 10, 9⟩
      [⟨.HOR_MAIN, [⟨some "BILLS", [⟨some "T", none, [], [⟨"M", [], []⟩], []⟩]⟩]⟩]
      = .error (.nameError "speech_id") ∧
    (∀ msg, (PyError.nameError "speech_id") ≠ PyError.valueError msg) := by
  constructor
  · rfl
  · intro msg h
    cases h

/-! ### Fields of the segments emitted by `parse_speech` (used to settle
the sequence-counter claim). -/

/-- All accumulated segments (closed and open) satisfy `P`. -/
def PartsOk (P : SpeechPart → Prop) (st : SpState) : Prop :=
  ∀ q ∈ st.segments ++ st.prev.toList, P q

theorem PartsOk_merge {P : SpeechPart → Prop} {st : SpState}
    {prev : SpeechPart} (c : String)
    (hcontent : ∀ part c', P part → P { part with speech_content := c' })
    (hok : PartsOk P st) (hopen : st.prev = some prev) :
    PartsOk P { st with prev := some { prev with speech_content := c } } := by
  intro q hq
  rw [show ({ st with prev := some { prev with speech_content := c } } : SpState).segments
      = st.segments from rfl,
      show ({ st with prev := some { prev with speech_content := c } } : SpState).prev
      = some { prev with speech_content := c } from rfl,
      Option.toList_some] at hq
  rcases List.mem_append.mp hq with h | h
  · exact hok q (by rw [hopen, Option.toList_some]; exact List.mem_append.mpr (Or.inl h))
  · have : q = { prev with speech_content := c } := by simpa using h
    subst this
    exact hcontent prev c
      (hok prev (by rw [hopen, Option.toList_some]; simp))

theorem PartsOk_closeOpen {P : SpeechPart → Prop} {st : SpState}
    {prev : SpeechPart} (npart : SpeechPart) (ind : Nat)
    (hok : PartsOk P st) (hopen : st.prev = some prev) (hP : P npart) :
    PartsOk P { st with
                segments := st.segments ++ [prev],
                part_seq := st.part_seq + 1,
                interjection_ind := ind,
                prev := some npart } := by
  intro q hq
  rw [show ({ st with
                segments := st.segments ++ [prev],
                part_seq := st.part_seq + 1,
                interjection_ind := ind,
                prev := some npart } : SpState).segments = st.segments ++ [prev] from rfl,
      show ({ st with
                segments := st.segments ++ [prev],
                part_seq := st.part_seq + 1,
                interjection_ind := ind,
                prev := some npart } : SpState).prev = some npart from rfl,
      Option.toList_some] at hq
  rcases List.mem_append.mp hq with h | h
  · exact hok q (by rw [hopen, Option.toList_some]; exact h)
  · have : q = npart := by simpa using h
    subst this
    exact hP

theorem PartsOk_openFirst {P : SpeechPart → Prop} {st : SpState}
    (npart : SpeechPart) (hok : PartsOk P st) (hopen : st.prev = none)
    (hP : P npart) : PartsOk P { st with prev := some npart } := by
  intro q hq
  rw [show ({ st with prev := some npart } : SpState).segments = st.segments from rfl,
      show ({ st with prev := some npart } : SpState).prev = some npart from rfl,
      Option.toList_some] at hq
  rcases List.mem_append.mp hq with h | h
  · exact hok q (by rw [hopen]; exact List.mem_append.mpr (Or.inl h))
  · have : q = npart := by simpa using h
    subst this
    exact hP

theorem stepContinuation_partsOk {P : SpeechPart → Prop} {ctx : SpCtx}
    {ss : Nat} {mid : String} {st : SpState} {p : Paragraph}
    (hmk : ∀ pseq tid ty c, P (mkSpeechPart ctx ss pseq tid ty c))
    (hcontent : ∀ part c', P part → P { part with speech_content := c' })
    (hok : PartsOk P st) :
    ∀ st', stepContinuation ctx ss mid st p = .ok st' → PartsOk P st' := by
  intro st' h
  unfold stepContinuation at h
  by_cases hc : is_continuation p = true
  · rw [if_pos hc] at h
    cases hopen : st.prev with
    | none =>
      rw [hopen] at h
      exact absurd h (by simp)
    | some prev =>
      rw [hopen] at h
      dsimp only at h
      by_cases ht : prev.talker_id = mid
      · rw [if_pos ht] at h
        have h2 := Except.ok.inj h
        subst h2
        exact PartsOk_merge _ hcontent hok hopen
      · rw [if_neg ht] at h
        have h2 := Except.ok.inj h
        subst h2
        exact PartsOk_closeOpen _ _ hok hopen (hmk _ _ _ _)
  · rw [if_neg hc] at h
    have h2 := Except.ok.inj h
    subst h2
    exact hok

theorem stepRest_partsOk {P : SpeechPart → Prop} {ctx : SpCtx}
    {ss : Nat} {mid : String} {ints : List String} {st : SpState} {p : Paragraph}
    (hmk : ∀ pseq tid ty c, P (mkSpeechPart ctx ss pseq tid ty c))
    (hcontent : ∀ part c', P part → P { part with speech_content := c' })
    (hok : PartsOk P st) :
    ∀ st', stepRest ctx ss mid ints st p = .ok st' → PartsOk P st' := by
  intro st' h
  unfold stepRest at h
  cases hI : is_interjection p with
  | some ity =>
    rw [hI] at h
    dsimp only at h
    cases hopen : st.prev with
    | none =>
      rw [hopen] at h
      exact absurd h (by simp)
    | some prev =>
      rw [hopen] at h
      dsimp only at h
      by_cases hg : ity = .GENERAL
      · rw [if_pos hg] at h
        have h2 := Except.ok.inj h
        subst h2
        exact PartsOk_closeOpen _ _ hok hopen (hmk _ _ _ _)
      · rw [if_neg hg] at h
        cases hget : ints.get? st.interjection_ind with
        | none =>
          rw [hget] at h
          have h2 := Except.ok.inj h
          subst h2
          exact hok
        | some tid =>
          rw [hget] at h
          dsimp only at h
          by_cases ht : prev.talker_id = tid
          · rw [if_pos ht] at h
            have h2 := Except.ok.inj h
            subst h2
            exact PartsOk_merge _ hcontent hok hopen
          · rw [if_neg ht] at h
            have h2 := Except.ok.inj h
            subst h2
            exact PartsOk_closeOpen _ _ hok hopen (hmk _ _ _ _)
  | none =>
    rw [hI] at h
    dsimp only at h
    cases hopen : st.prev with
    | none =>
      rw [hopen] at h
      dsimp only at h
      by_cases h0 : st.part_seq = 0
      · rw [if_pos h0] at h
        have h2 := Except.ok.inj h
        subst h2
        exact PartsOk_openFirst _ hok hopen (hmk _ _ _ _)
      · rw [if_neg h0] at h
        exact absurd h (by simp)
    | some prev =>
      rw [hopen] at h
      dsimp only at h
      by_cases ht : prev.talker_id = mid
      · rw [if_pos ht] at h
        have h2 := Except.ok.inj h
        subst h2
        exact PartsOk_merge _ hcontent hok hopen
      · rw [if_neg ht] at h
        have h2 := Except.ok.inj h
        subst h2
        exact PartsOk_closeOpen _ _ hok hopen (hmk _ _ _ _)

theorem runParagraphs_partsOk (P : SpeechPart → Prop) {ctx : SpCtx}
    {ss : Nat} {mid : String} {ints : List String}
    (hmk : ∀ pseq tid ty c, P (mkSpeechPart ctx ss pseq tid ty c))
    (hcontent : ∀ part c', P part → P { part with speech_content := c' }) :
    ∀ (ps : List Paragraph) (st : SpState), PartsOk P st →
    ∀ st', runParagraphs ctx ss mid ints st ps = .ok st' → PartsOk P st' := by
  intro ps
  induction ps with
  | nil =>
    intro st hok st' h
    unfold runParagraphs at h
    have h2 := Except.ok.inj h
    subst h2
    exact hok
  | cons p ps ih =>
    intro st hok st' h
    unfold runParagraphs at h
    cases hA : stepParagraph ctx ss mid ints st p with
    | error e =>
      rw [hA] at h
      exact absurd h (by simp)
    | ok st1 =>
      rw [hA] at h
      have hok1 : PartsOk P st1 := by
        unfold stepParagraph at hA
        cases hB : stepContinuation ctx ss mid st p with
        | error e =>
          rw [hB] at hA
          exact absurd hA (by simp)
        | ok stm =>
          rw [hB] at hA
          exact stepRest_partsOk hmk hcontent
            (stepContinuation_partsOk hmk hcontent hok stm hB) st1 hA
      exact ih st1 hok1 st' h

/-- The segments returned by `parse_speech` all carry the speech-sequence
they were called with and the subdebate sequence numbers of the cursor. -/
theorem parse_speech_seq_fields {ctx : SpCtx} {ss : Nat} {mid : String}
    {ints : List String} {ps : List Paragraph} {segs : List SpeechPart}
    (h : parse_speech ctx ss mid ints ps = .ok segs) :
    ∀ q ∈ segs, q.speech_seq = ss ∧ q.subdebate_1_seq = ctx.subdebate_1_seq
      ∧ q.subdebate_2_seq = ctx.subdebate_2_seq := by
  intro q hq
  unfold parse_speech at h
  cases hA : runParagraphs ctx ss mid ints ⟨0, 0, [], none⟩ ps with
  | error e =>
    rw [hA] at h
    exact absurd h (by simp)
  | ok st =>
    rw [hA] at h
    have h2 := Except.ok.inj h
    have hok := runParagraphs_partsOk
      (fun q => q.speech_seq = ss ∧ q.subdebate_1_seq = ctx.subdebate_1_seq
        ∧ q.subdebate_2_seq = ctx.subdebate_2_seq)
      (fun _ _ _ _ => ⟨rfl, rfl, rfl⟩)
      (fun _ _ hP => hP)
      ps ⟨0, 0, [], none⟩ (by intro q hq; simp at hq)
      st hA
    exact hok q (h2 ▸ hq)

/-! ### Sequence-counter bookkeeping of the traversal (C8). -/

theorem runSpeechNode_fields {st : PState} {ss : Nat} {sp : SpeechNode}
    {parts : List SpeechPart} (h : runSpeechNode st ss sp = .ok parts) :
    ∀ q ∈ parts, q.speech_seq = ss ∧ q.subdebate_1_seq = st.subdebate_1_seq
      ∧ q.subdebate_2_seq = st.subdebate_2_seq := by
  unfold runSpeechNode at h
  cases hc : st.debate_category with
  | none =>
    rw [hc] at h
    exact absurd h (by simp)
  | some cat =>
    rw [hc] at h
    cases ht : st.subdebate_1_title with
    | none =>
      rw [ht] at h
      exact absurd h (by simp)
    | some t1 =>
      rw [ht] at h
      dsimp only at h
      exact parse_speech_seq_fields h

theorem processSpeech1_spec {st : PState} {sp : SpeechNode} {st' : PState}
    (h : processSpeech1 st sp = .ok st') :
    st'.debate_seq = st.debate_seq ∧ st'.subdebate_1_seq = st.subdebate_1_seq ∧
    st'.speech_seq = st.speech_seq + 1 ∧
    ∃ new, st'.parts = st.parts ++ new ∧
      ∀ q ∈ new, q.sub1Seq = st.subdebate_1_seq ∧
        q.speechSeqOf = some st.speech_seq := by
  unfold processSpeech1 at h
  cases hr : runSpeechNode st st.speech_seq sp with
  | error e =>
    rw [hr] at h
    exact absurd h (by simp)
  | ok speechParts =>
    rw [hr] at h
    dsimp only at h
    by_cases he : speechParts.isEmpty
    · rw [if_pos he] at h
      exact absurd h (by simp)
    · rw [if_neg he] at h
      have h2 := Except.ok.inj h
      subst h2
      refine ⟨rfl, rfl, rfl, speechParts.map OutPart.speech, rfl, ?_⟩
      intro q hq
      obtain ⟨sp', hsp', rfl⟩ := List.mem_map.mp hq
      obtain ⟨hs, h1, _⟩ := runSpeechNode_fields hr sp' hsp'
      exact ⟨by rw [show (OutPart.speech sp').sub1Seq = sp'.subdebate_1_seq from rfl, h1],
        by rw [show (OutPart.speech sp').speechSeqOf = some sp'.speech_seq from rfl, hs]⟩

theorem processSpeech2_spec {st : PState} {sp : SpeechNode} {st' : PState}
    (h : processSpeech2 st sp = .ok st') :
    st'.debate_seq = st.debate_seq ∧ st'.subdebate_1_seq = st.subdebate_1_seq ∧
    st'.speech_seq = st.speech_seq + 1 ∧
    ∃ new, st'.parts = st.parts ++ new ∧
      ∀ q ∈ new, q.sub1Seq = st.subdebate_1_seq ∧
        q.speechSeqOf = some st.speech_seq := by
  unfold processSpeech2 at h
  cases hr : runSpeechNode st st.speech_seq sp with
  | error e =>
    rw [hr] at h
    exact absurd h (by simp)
  | ok speechParts =>
    rw [hr] at h
    dsimp only at h
    have h2 := Except.ok.inj h
    subst h2
    refine ⟨rfl, rfl, rfl, speechParts.map OutPart.speech, rfl, ?_⟩
    intro q hq
    obtain ⟨sp', hsp', rfl⟩ := List.mem_map.mp hq
    obtain ⟨hs, h1, _⟩ := runSpeechNode_fields hr sp' hsp'
    exact ⟨by rw [show (OutPart.speech sp').sub1Seq = sp'.subdebate_1_seq from rfl, h1],
      by rw [show (OutPart.speech sp').speechSeqOf = some sp'.speech_seq from rfl, hs]⟩

theorem processSpeechList1_spec : ∀ (sps : List SpeechNode) (st st' : PState),
    processSpeechList1 st sps = .ok st' →
    st'.debate_seq = st.debate_seq ∧ st'.subdebate_1_seq = st.subdebate_1_seq ∧
    st'.speech_seq = st.speech_seq + sps.length ∧
    ∃ new, st'.parts = st.parts ++ new ∧
      ∀ q ∈ new, q.sub1Seq = st.subdebate_1_seq ∧
        ∃ j, q.speechSeqOf = some j ∧ st.speech_seq ≤ j ∧
          j < st.speech_seq + sps.length := by
  intro sps
  induction sps with
  | nil =>
    intro st st' h
    unfold processSpeechList1 at h
    have h2 := Except.ok.inj h
    subst h2
    exact ⟨rfl, rfl, by simp, [], by simp, by simp⟩
  | cons sp sps ih =>
    intro st st' h
    unfold processSpeechList1 at h
    cases hA : processSpeech1 st sp with
    | error e =>
      rw [hA] at h
      exact absurd h (by simp)
    | ok st1 =>
      rw [hA] at h
      obtain ⟨hd1, hs1, hss1, new1, hp1, hq1⟩ := processSpeech1_spec hA
      obtain ⟨hd2, hs2, hss2, new2, hp2, hq2⟩ := ih st1 st' h
      refine ⟨by rw [hd2, hd1], by rw [hs2, hs1], by rw [hss2, hss1]; simp; omega,
        new1 ++ new2, by rw [hp2, hp1, List.append_assoc], ?_⟩
      intro q hq
      rcases List.mem_append.mp hq with hm | hm
      · obtain ⟨ha, hb⟩ := hq1 q hm
        exact ⟨ha, st.speech_seq, hb, le_rfl, by simp⟩
      · obtain ⟨ha, j, hj, hj1, hj2⟩ := hq2 q hm
        refine ⟨by rw [ha, hs1], j, hj, by omega, by rw [hss1] at hj2; simp; omega⟩

theorem processSpeechList2_spec : ∀ (sps : List SpeechNode) (st st' : PState),
    processSpeechList2 st sps = .ok st' →
    st'.debate_seq = st.debate_seq ∧ st'.subdebate_1_seq = st.subdebate_1_seq ∧
    st'.speech_seq = st.speech_seq + sps.length ∧
    ∃ new, st'.parts = st.parts ++ new ∧
      ∀ q ∈ new, q.sub1Seq = st.subdebate_1_seq ∧
        ∃ j, q.speechSeqOf = some j ∧ st.speech_seq ≤ j ∧
          j < st.speech_seq + sps.length := by
  intro sps
  induction sps with
  | nil =>
    intro st st' h
    unfold processSpeechList2 at h
    have h2 := Except.ok.inj h
    subst h2
    exact ⟨rfl, rfl, by simp, [], by simp, by simp⟩
  | cons sp sps ih =>
    intro st st' h
    unfold processSpeechList2 at h
    cases hA : processSpeech2 st sp with
    | error e =>
      rw [hA] at h
      exact absurd h (by simp)
    | ok st1 =>
      rw [hA] at h
      obtain ⟨hd1, hs1, hss1, new1, hp1, hq1⟩ := processSpeech2_spec hA
      obtain ⟨hd2, hs2, hss2, new2, hp2, hq2⟩ := ih st1 st' h
      refine ⟨by rw [hd2, hd1], by rw [hs2, hs1], by rw [hss2, hss1]; simp; omega,
        new1 ++ new2, by rw [hp2, hp1, List.append_assoc], ?_⟩
      intro q hq
      rcases List.mem_append.mp hq with hm | hm
      · obtain ⟨ha, hb⟩ := hq1 q hm
        exact ⟨ha, st.speech_seq, hb, le_rfl, by simp⟩
      · obtain ⟨ha, j, hj, hj1, hj2⟩ := hq2 q hm
        refine ⟨by rw [ha, hs1], j, hj, by omega, by rw [hss1] at hj2; simp; omega⟩

/-- Number of subdebate-1 nodes with a determinable title. -/
def countDetSub1 (subs : List Subdebate1) : Nat :=
  (subs.filter (fun s => s.title.isSome)).length

/-- Number of debates with a determinable category. -/
def countDet (ds : List DebateNode) : Nat :=
  (ds.filter (fun d => d.category.isSome)).length

/-- Total number of determinable debates across all chamber sections. -/
def countDetChambers (chs : List ChamberNode) : Nat :=
  (chs.map (fun ch => countDet ch.debates)).sum

theorem processSub2_spec {st0 : PState} {s2 : Subdebate2} {st' : PState}
    (hsz : st0.speech_seq = 0) (h : processSub2 st0 s2 = .ok st') :
    st'.debate_seq = st0.debate_seq ∧ st'.subdebate_1_seq = st0.subdebate_1_seq ∧
    st'.speech_seq = 0 ∧
    ∃ new, st'.parts = st0.parts ++ new ∧
      ∀ q ∈ new, q.sub1Seq = st0.subdebate_1_seq ∧
        ∀ j, q.speechSeqOf = some j → j < s2.speeches.length := by
  unfold processSub2 at h
  dsimp only at h
  split at h
  · have h2 := Except.ok.inj h
    subst h2
    exact ⟨rfl, rfl, hsz, [], by simp, by simp⟩
  · rename_i t2 hT
    split at h
    · exact absurd h (by simp)
    · rename_i stfr hFR
      split at h
      · exact absurd h (by simp)
      · rename_i st1 hL
        split at h
        · exact absurd h (by simp)
        · rename_i k hK
          have h2 := Except.ok.inj h
          subst h2
          obtain ⟨hd1, hs1, hss1, new1, hp1, hq1⟩ := processSpeechList2_spec _ _ _ hL
          have hfr : stfr.debate_seq = st0.debate_seq ∧
              stfr.subdebate_1_seq = st0.subdebate_1_seq ∧
              stfr.speech_seq = st0.speech_seq ∧
              ∃ newfr, stfr.parts = st0.parts ++ newfr ∧
                ∀ q ∈ newfr, q.sub1Seq = st0.subdebate_1_seq ∧
                  q.speechSeqOf = none := by
            by_cases hfrq : t2 = "First Reading"
            · rw [if_pos hfrq] at hFR
              cases hcat : st0.debate_category with
              | none =>
                rw [hcat] at hFR
                exact absurd hFR (by simp)
              | some cat =>
                rw [hcat] at hFR
                cases ht1 : st0.subdebate_1_title with
                | none =>
                  rw [ht1] at hFR
                  exact absurd hFR (by simp)
                | some t1 =>
                  rw [ht1] at hFR
                  dsimp only at hFR
                  have h3 := Except.ok.inj hFR
                  subst h3
                  refine ⟨rfl, rfl, rfl, _, rfl, ?_⟩
                  intro q hq
                  simp only [List.mem_singleton] at hq
                  subst hq
                  exact ⟨rfl, rfl⟩
            · rw [if_neg hfrq] at hFR
              have h3 := Except.ok.inj hFR
              subst h3
              exact ⟨rfl, rfl, rfl, [], by simp, by simp⟩
          obtain ⟨hfd, hfs, hfss, newfr, hfp, hfq⟩ := hfr
          refine ⟨by rw [hd1, hfd], by rw [hs1, hfs], rfl,
            newfr ++ new1, by rw [hp1, hfp, List.append_assoc], ?_⟩
          intro q hq
          rcases List.mem_append.mp hq with hm | hm
          · obtain ⟨ha, hb⟩ := hfq q hm
            refine ⟨ha, ?_⟩
            intro j hj
            rw [hb] at hj
            cases hj
          · obtain ⟨ha, j, hj, hj1, hj2⟩ := hq1 q hm
            refine ⟨by rw [ha, hfs], ?_⟩
            intro j' hj'
            rw [hj] at hj'
            have hj'' : j' = j := by simpa using hj'.symm
            subst hj''
            rw [hfss, hsz] at hj2
            simpa using hj2

theorem processSub2List_spec : ∀ (s2s : List Subdebate2) (st st' : PState),
    st.speech_seq = 0 → processSub2List st s2s = .ok st' →
    st'.debate_seq = st.debate_seq ∧ st'.subdebate_1_seq = st.subdebate_1_seq ∧
    st'.speech_seq = 0 ∧
    ∃ new, st'.parts = st.parts ++ new ∧
      ∀ q ∈ new, q.sub1Seq = st.subdebate_1_seq := by
  intro s2s
  induction s2s with
  | nil =>
    intro st st' hsz h
    unfold processSub2List at h
    have h2 := Except.ok.inj h
    subst h2
    exact ⟨rfl, rfl, hsz, [], by simp, by simp⟩
  | cons s2 s2s ih =>
    intro st st' hsz h
    unfold processSub2List at h
    cases hA : processSub2 st s2 with
    | error e =>
      rw [hA] at h
      exact absurd h (by simp)
    | ok st1 =>
      rw [hA] at h
      obtain ⟨hd1, hs1, hss1, new1, hp1, hq1⟩ := processSub2_spec hsz hA
      obtain ⟨hd2, hs2, hss2, new2, hp2, hq2⟩ := ih st1 st' hss1 h
      refine ⟨by rw [hd2, hd1], by rw [hs2, hs1], hss2,
        new1 ++ new2, by rw [hp2, hp1, List.append_assoc], ?_⟩
      intro q hq
      rcases List.mem_append.mp hq with hm | hm
      · exact (hq1 q hm).1
      · rw [hq2 q hm, hs1]

theorem processSub1_spec {st0 : PState} {s1 : Subdebate1} {st' : PState}
    (h : processSub1 st0 s1 = .ok st') :
    st'.debate_seq = st0.debate_seq ∧
    (s1.title = none →
      st'.subdebate_1_seq = st0.subdebate_1_seq ∧
      st'.speech_seq = st0.speech_seq ∧ st'.parts = st0.parts) ∧
    (s1.title.isSome = true → ∃ k, st0.subdebate_1_seq = some k ∧
      st'.subdebate_1_seq = some (k + 1) ∧ st'.speech_seq = 0 ∧
      ∃ new, st'.parts = st0.parts ++ new ∧ ∀ q ∈ new, q.sub1Seq = some k) := by
  unfold processSub1 at h
  dsimp only at h
  split at h
  · rename_i hT
    have h2 := Except.ok.inj h
    subst h2
    refine ⟨rfl, fun _ => ⟨rfl, rfl, rfl⟩, fun hs => ?_⟩
    rw [hT] at hs
    cases hs
  · rename_i t hT
    split at h
    · exact absurd h (by simp)
    · rename_i st1 hL
      split at h
      · exact absurd h (by simp)
      · rename_i st2 hM
        split at h
        · exact absurd h (by simp)
        · rename_i k hK
          have h2 := Except.ok.inj h
          subst h2
          obtain ⟨hd1, hs1, _, new1, hp1, hq1⟩ := processSpeechList1_spec _ _ _ hL
          dsimp only at hd1 hs1 hp1 hq1
          obtain ⟨hd2, hs2, hss2, new2, hp2, hq2⟩ :=
            processSub2List_spec _ _ _ rfl hM
          dsimp only at hd2 hs2 hp2 hq2
          refine ⟨by rw [hd2, hd1], ?_, ?_⟩
          · intro hc
            rw [hT] at hc
            cases hc
          · intro _
            refine ⟨k, ?_, ?_, hss2, new1 ++ new2, ?_, ?_⟩
            · rw [← hs1, ← hs2]
              exact hK
            · rfl
            · show st2.parts = st0.parts ++ (new1 ++ new2)
              rw [hp2, hp1, List.append_assoc]
            · intro q hq
              have hks : st0.subdebate_1_seq = some k := by
                rw [← hs1, ← hs2]
                exact hK
              rcases List.mem_append.mp hq with hm | hm
              · rw [(hq1 q hm).1]
                exact hks
              · rw [hq2 q hm, hs1]
                exact hks

theorem countDetSub1_cons_none {s1 : Subdebate1} {subs : List Subdebate1}
    (h : s1.title = none) : countDetSub1 (s1 :: subs) = countDetSub1 subs := by
  unfold countDetSub1
  rw [List.filter_cons]
  simp [h]

theorem countDetSub1_cons_some {s1 : Subdebate1} {subs : List Subdebate1}
    (h : s1.title.isSome = true) :
    countDetSub1 (s1 :: subs) = countDetSub1 subs + 1 := by
  unfold countDetSub1
  rw [List.filter_cons]
  simp [h]

theorem processSub1List_spec : ∀ (subs : List Subdebate1) (st st' : PState)
    (k : Nat), st.subdebate_1_seq = some k →
    processSub1List st subs = .ok st' →
    st'.debate_seq = st.debate_seq ∧
    st'.subdebate_1_seq = some (k + countDetSub1 subs) ∧
    (st.speech_seq = 0 → st'.speech_seq = 0) ∧
    ∃ new, st'.parts = st.parts ++ new ∧
      ∀ q ∈ new, ∃ i, q.sub1Seq = some i ∧ k ≤ i ∧
        i < k + countDetSub1 subs := by
  intro subs
  induction subs with
  | nil =>
    intro st st' k hk h
    unfold processSub1List at h
    have h2 := Except.ok.inj h
    subst h2
    exact ⟨rfl, by rw [hk]; rfl, fun hs => hs, [], by simp, by simp⟩
  | cons s1 subs ih =>
    intro st st' k hk h
    unfold processSub1List at h
    cases hA : processSub1 st s1 with
    | error e =>
      rw [hA] at h
      exact absurd h (by simp)
    | ok st1 =>
      rw [hA] at h
      obtain ⟨hd1, hnone, hsome⟩ := processSub1_spec hA
      cases hT : s1.title with
      | none =>
        obtain ⟨hs1, hss1, hp1⟩ := hnone hT
        obtain ⟨hd2, hs2, hss2, new2, hp2, hq2⟩ :=
          ih st1 st' k (by rw [hs1, hk]) h
        rw [countDetSub1_cons_none hT]
        refine ⟨by rw [hd2, hd1], hs2, fun hs => hss2 (by rw [hss1, hs]),
          new2, by rw [hp2, hp1], hq2⟩
      | some t =>
        obtain ⟨k', hk', hs1, hss1, new1, hp1, hq1⟩ :=
          hsome (by rw [hT]; rfl)
        have hkk : k' = k := by
          rw [hk] at hk'
          exact (Option.some.inj hk').symm
        rw [hkk] at hs1 hq1
        obtain ⟨hd2, hs2, hss2, new2, hp2, hq2⟩ :=
          ih st1 st' (k + 1) hs1 h
        rw [countDetSub1_cons_some (by rw [hT]; rfl)]
        refine ⟨by rw [hd2, hd1], by rw [hs2]; congr 1; omega,
          fun _ => hss2 hss1,
          new1 ++ new2, by rw [hp2, hp1, List.append_assoc], ?_⟩
        intro q hq
        rcases List.mem_append.mp hq with hm | hm
        · exact ⟨k, hq1 q hm, le_rfl, by omega⟩
        · obtain ⟨i, hi, hi1, hi2⟩ := hq2 q hm
          exact ⟨i, hi, by omega, by omega⟩

theorem processDebate_spec {st0 : PState} {d : DebateNode} {st' : PState}
    (h : processDebate st0 d = .ok st') :
    st'.debate_seq = st0.debate_seq + (if d.category.isSome then 1 else 0) ∧
    (st0.speech_seq = 0 → st'.speech_seq = 0) ∧
    ∃ new, st'.parts = st0.parts ++ new ∧
      ∀ q ∈ new, ∃ i, q.sub1Seq = some i ∧
        i < countDetSub1 d.subdebate1s := by
  unfold processDebate at h
  dsimp only at h
  split at h
  · rename_i hC
    have h2 := Except.ok.inj h
    subst h2
    rw [hC]
    exact ⟨by simp, fun hs => hs, [], by simp, by simp⟩
  · rename_i c hC
    split at h
    · exact absurd h (by simp)
    · rename_i st1 hL
      have h2 := Except.ok.inj h
      subst h2
      obtain ⟨hd1, hs1, hss1, new1, hp1, hq1⟩ :=
        processSub1List_spec _ _ _ 0 rfl hL
      dsimp only at hd1 hss1 hp1
      rw [hC]
      refine ⟨?_, fun hs => hss1 hs, new1, ?_, ?_⟩
      · show st1.debate_seq + 1 = st0.debate_seq + 1
        rw [hd1]
      · show st1.parts = st0.parts ++ new1
        exact hp1
      · intro q hq
        obtain ⟨i, hi, _, hi2⟩ := hq1 q hq
        exact ⟨i, hi, by simpa using hi2⟩

theorem countDet_cons (d : DebateNode) (ds : List DebateNode) :
    countDet (d :: ds) = (if d.category.isSome then 1 else 0) + countDet ds := by
  unfold countDet
  rw [List.filter_cons]
  by_cases hc : d.category.isSome
  · simp [hc]
    omega
  · simp [hc]

theorem parse_speeches_spec : ∀ (ds : List DebateNode) (st st' : PState),
    parse_speeches st ds = .ok st' →
    st'.debate_seq = st.debate_seq + countDet ds ∧
    (st.speech_seq = 0 → st'.speech_seq = 0) := by
  intro ds
  induction ds with
  | nil =>
    intro st st' h
    unfold parse_speeches at h
    have h2 := Except.ok.inj h
    subst h2
    exact ⟨by simp [countDet], fun hs => hs⟩
  | cons d ds ih =>
    intro st st' h
    unfold parse_speeches at h
    cases hA : processDebate st d with
    | error e =>
      rw [hA] at h
      exact absurd h (by simp)
    | ok st1 =>
      rw [hA] at h
      obtain ⟨hd1, hss1, _⟩ := processDebate_spec hA
      obtain ⟨hd2, hss2⟩ := ih st1 st' h
      rw [countDet_cons]
      exact ⟨by rw [hd2, hd1]; omega, fun hs => hss2 (hss1 hs)⟩

theorem parseChambers_spec : ∀ (chs : List ChamberNode) (st st' : PState),
    parseChambers st chs = .ok st' →
    st'.debate_seq = st.debate_seq + countDetChambers chs ∧
    (st.speech_seq = 0 → st'.speech_seq = 0) := by
  intro chs
  induction chs with
  | nil =>
    intro st st' h
    unfold parseChambers at h
    have h2 := Except.ok.inj h
    subst h2
    exact ⟨by simp [countDetChambers], fun hs => hs⟩
  | cons ch chs ih =>
    intro st st' h
    unfold parseChambers at h
    cases hA : processChamber st ch with
    | error e =>
      rw [hA] at h
      exact absurd h (by simp)
    | ok st1 =>
      rw [hA] at h
      unfold processChamber at hA
      obtain ⟨hd1, hss1⟩ := parse_speeches_spec _ _ _ hA
      dsimp only at hd1 hss1
      obtain ⟨hd2, hss2⟩ := ih st1 st' h
      constructor
      · rw [hd2, hd1]
        show st.debate_seq + countDet ch.debates + countDetChambers chs
          = st.debate_seq + countDetChambers (ch :: chs)
        unfold countDetChambers
        simp
        omega
      · intro hs
        exact hss2 (hss1 hs)

/-- C8. The debate-sequence counter starts at 0, increases by one after each
debate whose category is determined, and is never reset across chamber
sections (across a whole chamber list it grows by the total number of
determined debates); within a debate the subdebate-1 sequence restarts at 0
(every segment emitted during the debate carries a subdebate-1 sequence
below the number of its processed subdebate-1 nodes); the speech-sequence
numbers the speeches of each first-level subdebate consecutively from its
entry value, is 0 again after every subdebate.2 and after every processed
subdebate.1 (so each subdebate is entered with speech-sequence 0), and
within one second-level subdebate every emitted speech segment's
speech-sequence is below the number of its speeches. -/
theorem sequence_counters :
    (∀ (h : HouseType) (d : PyDate),
      (initState h d).debate_seq = 0 ∧ (initState h d).speech_seq = 0) ∧
    (∀ st d st', processDebate st d = .ok st' →
      st'.debate_seq = st.debate_seq + (if d.category.isSome then 1 else 0)) ∧
    (∀ st chs st', parseChambers st chs = .ok st' →
      st'.debate_seq = st.debate_seq + countDetChambers chs) ∧
    (∀ st d st', processDebate st d = .ok st' →
      ∃ new, st'.parts = st.parts ++ new ∧
        ∀ q ∈ new, ∃ i, q.sub1Seq = some i ∧
          i < countDetSub1 d.subdebate1s) ∧
    (∀ st sps st', processSpeechList1 st sps = .ok st' →
      st'.speech_seq = st.speech_seq + sps.length ∧
      ∃ new, st'.parts = st.parts ++ new ∧
        ∀ q ∈ new, ∃ j, q.speechSeqOf = some j ∧
          st.speech_seq ≤ j ∧ j < st.speech_seq + sps.length) ∧
    (∀ st s2 st', st.speech_seq = 0 → processSub2 st s2 = .ok st' →
      st'.speech_seq = 0 ∧
      ∃ new, st'.parts = st.parts ++ new ∧
        ∀ q ∈ new, ∀ j, q.speechSeqOf = some j → j < s2.speeches.length) ∧
    (∀ st s1 st', st.speech_seq = 0 → processSub1 st s1 = .ok st' →
      st'.speech_seq = 0) := by
  refine ⟨fun h d => ⟨rfl, rfl⟩, ?_, ?_, ?_, ?_, ?_, ?_⟩
  · intro st d st' h
    exact (processDebate_spec h).1
  · intro st chs st' h
    exact (parseChambers_spec chs st st' h).1
  · intro st d st' h
    exact (processDebate_spec h).2.2
  · intro st sps st' h
    obtain ⟨_, _, hss, new, hp, hq⟩ := processSpeechList1_spec sps st st' h
    exact ⟨hss, new, hp, fun q hm => ((hq q hm).2)⟩
  · intro st s2 st' hsz h
    obtain ⟨_, _, hss, new, hp, hq⟩ := processSub2_spec hsz h
    exact ⟨hss, new, hp, fun q hm => (hq q hm).2⟩
  · intro st s1 st' hsz h
    obtain ⟨_, hnone, hsome⟩ := processSub1_spec h
    cases hT : s1.title with
    | none =>
      rw [(hnone hT).2.1, hsz]
    | some t =>
      obtain ⟨_, _, _, hss, _⟩ := hsome (by rw [hT]; rfl)
      exact hss

/-- Witness for C8: a two-chamber document with three debates, one of which
has no determinable category, ends with debate-sequence 2. -/
theorem sequence_counters_witness :
    ((⟨⟨2025, 10, 9⟩, .HOR, .HOR_FEDERATION, none, none, 2, none, none,
        some 0, none, none, none, 0, [], []⟩ : PState) : PState).debate_seq
      = (initState .HOR ⟨2025, 10, 9⟩).debate_seq + countDetChambers
        [⟨.HOR_MAIN, [⟨some "BILLS", []⟩, ⟨none, []⟩]⟩,
         ⟨.HOR_FEDERATION, [⟨some "MOTIONS", []⟩]⟩] :=
  sequence_counters.2.2.1 (initState .HOR ⟨2025, 10, 9⟩)
    [⟨.HOR_MAIN, [⟨some "BILLS", []⟩, ⟨none, []⟩]⟩,
     ⟨.HOR_FEDERATION, [⟨some "MOTIONS", []⟩]⟩]
    ⟨⟨2025, 10, 9⟩, .HOR, .HOR_FEDERATION, none, none, 2, none, none,
        some 0, none, none, none, 0, [], []⟩ rfl
